import Mathlib

/-!
Verification of the dependency-resolution directed graph (dg.go).

The Go source is shallowly embedded:
  - Go maps become association lists (first-match lookup); the graph
    operations never create duplicate keys.
  - Go map-backed sets become lists managed with set-style insert/erase.
  - The node store is modelled as a heap that keeps removed nodes with
    deleted = true; the Go map d.nodes corresponds to the non-deleted
    entries (mapLookup), while node handles dereference the heap
    (heapLookup).  Removing a node deletes it from the Go map, so a
    handle to a removed node sees deleted = true while map lookups miss.
  - The Go ResolutionStatus string has the zero value "" only for nodes
    never created through AddNode; every node the embedding can build has
    one of the three declared statuses, so the ErrNodeResolutionUnknown
    branch of resolveNode is unrepresentable and omitted.
  - The recursive Unresolvable propagation is given explicit fuel; the
    out-of-fuel marker is a dedicated error that the theorems instantiate
    past.
  - Go panics inside dependencyResolved are modelled as returned errors.
  - All functions are pure: a Go method that mutates the graph becomes a
    function returning the new graph, and fallible methods return Except.
-/

/-- DependencyType of dg.go: the typed semantics of an edge, stored in the
destination node's outstanding-dependency map. -/
inductive DependencyType where
  | AndDependency
  | OrDependency
  | CompletionAndDependency
  | ObviatedDependency
deriving DecidableEq, Repr

/-- ResolutionStatus of dg.go: Waiting is initial, the other two terminal. -/
inductive ResolutionStatus where
  | Waiting
  | Resolved
  | Unresolvable
deriving DecidableEq, Repr

/-- Errors of the library (errors.go), plus outOfFuel, the marker used by
the fuel-indexed embedding of the recursive propagation. -/
inductive DGError where
  | ErrNodeAlreadyExists (id : String)
  | ErrNodeNotFound (id : String)
  | ErrNodeDeleted (id : String)
  | ErrCannotConnectToSelf (id : String)
  | ErrConnectionAlreadyExists (src dst : String)
  | ErrConnectionDoesNotExist (src dst : String)
  | ErrNodeResolutionAlreadySet (id : String) (existing new : ResolutionStatus)
  | ErrNotifiedOfWaiting (id dep : String)
  | ErrDuplicateDependencyResolution (id dep : String)
  | outOfFuel
deriving DecidableEq, Repr

/-- Association list standing in for a Go map keyed by node id. -/
abbrev AssocMap (α : Type) : Type := List (String × α)

/-- Lookup of a key: the first matching entry, like a Go map read. -/
def lookupA {α : Type} : AssocMap α → String → Option α
  | [], _ => none
  | (k, v) :: rest, key => if key = k then some v else lookupA rest key

/-- Insert or replace the entry of a key, like a Go map write. -/
def insertA {α : Type} : AssocMap α → String → α → AssocMap α
  | [], key, val => [(key, val)]
  | (k, v) :: rest, key, val =>
      if key = k then (key, val) :: rest else (k, v) :: insertA rest key val

/-- Delete the entry of a key, like a Go map delete. -/
def eraseA {α : Type} : AssocMap α → String → AssocMap α
  | [], _ => []
  | (k, v) :: rest, key => if key = k then rest else (k, v) :: eraseA rest key

/-- Apply a function to the value stored at a key, if present.  This models
a Go read-modify-write of one map entry. -/
def updateA {α : Type} : AssocMap α → String → (α → α) → AssocMap α
  | [], _, _ => []
  | (k, v) :: rest, key, f =>
      if key = k then (k, f v) :: rest else (k, v) :: updateA rest key f

/-- Insert into a Go map-backed set of ids (idempotent). -/
def setInsert (l : List String) (x : String) : List String :=
  if x ∈ l then l else l ++ [x]

/-- Delete from a Go map-backed set of ids. -/
def setErase : List String → String → List String
  | [], _ => []
  | y :: rest, x => if x = y then rest else y :: setErase rest x

theorem lookupA_updateA {α : Type} (l : AssocMap α) (k : String) (f : α → α)
    (k' : String) :
    lookupA (updateA l k f) k' =
      if k' = k then (lookupA l k).map f else lookupA l k' := by
  induction l with
  | nil => simp [updateA, lookupA]
  | cons p rest ih =>
      obtain ⟨a, b⟩ := p
      by_cases hka : k = a
      · subst hka
        by_cases hk' : k' = k
        · subst hk'; simp [updateA, lookupA]
        · simp [updateA, lookupA, hk']
      · by_cases hk' : k' = a
        · subst hk'
          have hak : ¬ k' = k := fun h => hka h.symm
          simp [updateA, lookupA, hka, hak]
        · simp [updateA, lookupA, hka, hk', ih]

theorem lookupA_insertA {α : Type} (l : AssocMap α) (k : String) (v : α)
    (k' : String) :
    lookupA (insertA l k v) k' = if k' = k then some v else lookupA l k' := by
  induction l with
  | nil => simp [insertA, lookupA]
  | cons p rest ih =>
      obtain ⟨a, b⟩ := p
      by_cases hka : k = a
      · subst hka
        by_cases hk' : k' = k
        · subst hk'; simp [insertA, lookupA]
        · simp [insertA, lookupA, hk']
      · by_cases hk' : k' = a
        · subst hk'
          have hak : ¬ k' = k := fun h => hka h.symm
          simp [insertA, lookupA, hka, hak]
        · simp [insertA, lookupA, hka, hk', ih]

theorem lookupA_eraseA_ne {α : Type} (l : AssocMap α) (k k' : String)
    (h : k' ≠ k) : lookupA (eraseA l k) k' = lookupA l k' := by
  induction l with
  | nil => simp [eraseA]
  | cons p rest ih =>
      obtain ⟨a, b⟩ := p
      by_cases hka : k = a
      · subst hka
        simp [eraseA, lookupA, h]
      · by_cases hk' : k' = a
        · subst hk'; simp [eraseA, lookupA, hka]
        · simp [eraseA, lookupA, hka, hk', ih]

theorem lookupA_mem {α : Type} {l : AssocMap α} {k : String} {v : α}
    (h : lookupA l k = some v) : (k, v) ∈ l := by
  induction l with
  | nil => simp [lookupA] at h
  | cons p rest ih =>
      obtain ⟨a, b⟩ := p
      by_cases hk : k = a
      · subst hk
        simp [lookupA] at h
        simp [h]
      · simp [lookupA, hk] at h
        exact List.mem_cons_of_mem _ (ih h)

theorem lookupA_isSome_of_mem {α : Type} {l : AssocMap α} {k : String} {v : α}
    (h : (k, v) ∈ l) : (lookupA l k).isSome := by
  induction l with
  | nil => simp at h
  | cons p rest ih =>
      obtain ⟨a, b⟩ := p
      by_cases hk : k = a
      · subst hk; simp [lookupA]
      · rcases List.mem_cons.mp h with h1 | h1
        · cases h1; simp at hk
        · simpa [lookupA, hk] using ih h1

theorem mem_lookupA_of_nodup {α : Type} {l : AssocMap α} {k : String} {v : α}
    (hn : (l.map Prod.fst).Nodup) (h : (k, v) ∈ l) : lookupA l k = some v := by
  induction l with
  | nil => simp at h
  | cons p rest ih =>
      obtain ⟨a, b⟩ := p
      simp only [List.map_cons, List.nodup_cons] at hn
      rcases List.mem_cons.mp h with h1 | h1
      · cases h1; simp [lookupA]
      · have hka : k ≠ a := by
          intro hk; subst hk
          exact hn.1 (List.mem_map.mpr ⟨(k, v), h1, rfl⟩)
        simpa [lookupA, hka] using ih hn.2 h1

theorem updateA_self {α : Type} (l : AssocMap α) (k : String) (f : α → α)
    (h : ∀ v, lookupA l k = some v → f v = v) : updateA l k f = l := by
  induction l with
  | nil => simp [updateA]
  | cons p rest ih =>
      obtain ⟨a, b⟩ := p
      by_cases hka : k = a
      · subst hka
        have : f b = b := h b (by simp [lookupA])
        simp [updateA, this]
      · have hrest : ∀ v, lookupA rest k = some v → f v = v := by
          intro v hv; exact h v (by simp [lookupA, hka, hv])
        simp [updateA, hka, ih hrest]

theorem updateA_updateA {α : Type} (l : AssocMap α) (k : String)
    (f g : α → α) : updateA (updateA l k f) k g = updateA l k (g ∘ f) := by
  induction l with
  | nil => simp [updateA]
  | cons p rest ih =>
      obtain ⟨a, b⟩ := p
      by_cases hka : k = a
      · subst hka; simp [updateA]
      · simp [updateA, hka, ih]

theorem setErase_setInsert (l : List String) (x : String) (h : x ∉ l) :
    setErase (setInsert l x) x = l := by
  induction l with
  | nil => simp [setInsert, setErase]
  | cons y rest ih =>
      have hxy : x ≠ y := by intro hx; exact h (by simp [hx])
      have hxr : x ∉ rest := fun hx => h (by simp [hx])
      simp only [setInsert, List.mem_cons] at *
      rw [if_neg (by push_neg; exact ⟨hxy, hxr⟩)]
      simp only [List.cons_append, setErase, if_neg hxy]
      have := ih hxr
      simpa [setInsert, hxr] using this

theorem mem_setInsert (l : List String) (x y : String) :
    y ∈ setInsert l x ↔ y ∈ l ∨ y = x := by
  by_cases h : x ∈ l
  · simp only [setInsert, if_pos h]
    constructor
    · exact Or.inl
    · rintro (hy | hy)
      · exact hy
      · exact hy ▸ h
  · simp [setInsert, if_neg h]

/-- Per-node state of dg.go's node struct.  The opaque payload (item) is
never inspected by the engine and is omitted; the id is the key under
which the node is stored. -/
structure DNode where
  deleted : Bool
  ready : Bool
  status : ResolutionStatus
  outstandingDependencies : AssocMap DependencyType
deriving DecidableEq, Repr

/-- State of dg.go's directedGraph struct.  nodes is a heap keeping removed
nodes with deleted = true (the Go map holds exactly the non-deleted
entries); readyForProcessing is the set of queued node ids (the Go map
stores pointers, statuses are read through the graph). -/
structure DGraph where
  nodes : AssocMap DNode
  readyForProcessing : List String
  connectionsFromNode : AssocMap (List String)
  connectionsToNode : AssocMap (List String)
deriving DecidableEq, Repr

/-- New of dg.go: the empty graph. -/
def newGraph : DGraph := ⟨[], [], [], []⟩

/-- Dereference of a node handle (Go pointer): finds the node even after
Remove, when it carries deleted = true. -/
def heapLookup (g : DGraph) (id : String) : Option DNode :=
  lookupA g.nodes id

/-- Read of the Go map d.nodes: removed nodes are absent. -/
def mapLookup (g : DGraph) (id : String) : Option DNode :=
  match lookupA g.nodes id with
  | some n => if n.deleted then none else some n
  | none => none

/-- Write-back of a node record through its handle. -/
def setNode (g : DGraph) (id : String) (n : DNode) : DGraph :=
  { g with nodes := updateA g.nodes id (fun _ => n) }

/-- Status of a node as observed through the graph. -/
def nodeStatus (g : DGraph) (id : String) : Option ResolutionStatus :=
  (heapLookup g id).map (fun n => n.status)

/-- AddNode of dg.go: fails on a duplicate id, otherwise inserts a fresh
Waiting node with empty edge slots in both adjacency mappings. -/
def addNode (g : DGraph) (id : String) : Except DGError DGraph :=
  if (mapLookup g id).isSome then
    .error (.ErrNodeAlreadyExists id)
  else
    .ok { g with
      nodes := insertA g.nodes id ⟨false, false, .Waiting, []⟩
      connectionsToNode := insertA g.connectionsToNode id []
      connectionsFromNode := insertA g.connectionsFromNode id [] }

/-- connectNodes of dg.go, the common body of Connect (And edge out of the
called node) and ConnectDependency (typed edge into the called node):
validates both ends, rejects self and duplicate edges, records the edge
in both adjacency mappings and the type in the destination's
outstanding-dependency map. -/
def connectNodes (g : DGraph) (fromID toID : String)
    (dependencyType : DependencyType) : Except DGError DGraph :=
  match mapLookup g fromID with
  | none => .error (.ErrNodeNotFound fromID)
  | some fromNode =>
    if fromNode.deleted then .error (.ErrNodeDeleted fromID) else
    match mapLookup g toID with
    | none => .error (.ErrNodeNotFound toID)
    | some toNode =>
      if toNode.deleted then .error (.ErrNodeDeleted toID) else
      if fromID = toID then .error (.ErrCannotConnectToSelf fromID) else
      if toID ∈ (lookupA g.connectionsFromNode fromID).getD [] then
        .error (.ErrConnectionAlreadyExists fromID toID)
      else
        .ok { g with
          connectionsFromNode :=
            updateA g.connectionsFromNode fromID (fun s => setInsert s toID)
          connectionsToNode :=
            updateA g.connectionsToNode toID (fun s => setInsert s fromID)
          nodes := updateA g.nodes toID (fun n =>
            { n with outstandingDependencies :=
                insertA n.outstandingDependencies fromID dependencyType }) }

/-- PushStartingNodes of dg.go: every node of the Go map whose outstanding
map is empty at call time is put on the ready queue.  The node records
themselves are not touched. -/
def pushStartingNodes (g : DGraph) : DGraph :=
  let q :=
    g.nodes.foldl
      (fun q p =>
        if p.2.deleted then q
        else if p.2.outstandingDependencies = [] then setInsert q p.1 else q)
      g.readyForProcessing
  { g with readyForProcessing := q }

/-- PopReadyNodes of dg.go: hands out the queued nodes (handles, through
which statuses are read) and clears the queue. -/
def popReadyNodes (g : DGraph) : List String × DGraph :=
  (g.readyForProcessing, { g with readyForProcessing := [] })

/-- hasOutstandingDependency of dg.go: whether any outstanding entry has
the expected type. -/
def DNode.hasOutstandingDependency (n : DNode)
    (expected : DependencyType) : Bool :=
  n.outstandingDependencies.any (fun p => p.2 = expected)

/-- markOrsObviated of dg.go: demote every outstanding Or entry to
Obviated. -/
def markOrsObviated (m : AssocMap DependencyType) : AssocMap DependencyType :=
  m.map (fun p =>
    if p.2 = .OrDependency then (p.1, .ObviatedDependency) else p)

/-- dependencyResolved of dg.go on destination nid, notified that source
depId reached dependencyResolution.  The recursive call back into
resolveNode is abstracted as recur; the two panic sites are modelled as
returned errors. -/
def dependencyResolvedCore
    (recur : DGraph → String → ResolutionStatus → Except DGError DGraph)
    (g : DGraph) (nid depId : String)
    (dependencyResolution : ResolutionStatus) : Except DGError DGraph :=
  match heapLookup g nid with
  | none => .error (.ErrNodeNotFound nid)
  | some n =>
    if n.deleted then .error (.ErrNodeDeleted nid) else
    if dependencyResolution = .Waiting then
      .error (.ErrNotifiedOfWaiting nid depId)
    else
    match lookupA n.outstandingDependencies depId with
    | none =>
      if depId ∈ (lookupA g.connectionsToNode nid).getD [] then
        .error (.ErrDuplicateDependencyResolution nid depId)
      else
        .error (.ErrConnectionDoesNotExist depId nid)
    | some dependencyType =>
      let n1 : DNode :=
        { n with outstandingDependencies :=
            eraseA n.outstandingDependencies depId }
      let g1 := setNode g nid n1
      if dependencyType = .ObviatedDependency then .ok g1 else
      if dependencyResolution = .Unresolvable ∧
          dependencyType ≠ .CompletionAndDependency then
        if dependencyType = .AndDependency ∨
            ¬ n1.hasOutstandingDependency .OrDependency then
          let n2 : DNode := { n1 with ready := true }
          let g2 := setNode g1 nid n2
          let q2 := setInsert g2.readyForProcessing nid
          let g3 := { g2 with readyForProcessing := q2 }
          recur g3 nid .Unresolvable
        else .ok g1
      else
        let n2 : DNode :=
          if dependencyType = .OrDependency then
            { n1 with outstandingDependencies :=
                markOrsObviated n1.outstandingDependencies }
          else n1
        let hasOrDependency : Bool :=
          if dependencyType = .OrDependency then false
          else n2.hasOutstandingDependency .OrDependency
        let hasAndDependency : Bool :=
          n2.hasOutstandingDependency .AndDependency ||
            n2.hasOutstandingDependency .CompletionAndDependency
        if ¬ (hasAndDependency || hasOrDependency) then
          let n3 : DNode := { n2 with ready := true }
          let g2 := setNode g1 nid n3
          let q2 := setInsert g2.readyForProcessing nid
          .ok { g2 with readyForProcessing := q2 }
        else .ok (setNode g1 nid n2)

/-- Notification loop of resolveNode of dg.go: notify each outbound
neighbor in turn, returning the first error immediately, exactly as the
Go for-loop does. -/
def notifyOutbound (f : DGraph → String → Except DGError DGraph) :
    DGraph → List String → Except DGError DGraph
  | g, [] => .ok g
  | g, dst :: rest =>
    match f g dst with
    | .error e => .error e
    | .ok g1 => notifyOutbound f g1 rest

/-- resolveNode of dg.go with explicit fuel for the recursive Unresolvable
propagation: guards (deleted, already set), status write, then
notification of every forward neighbor; the first error aborts and
surfaces, exactly as the Go loop returns it. -/
def resolveNodeF : Nat → DGraph → String → ResolutionStatus →
    Except DGError DGraph
  | 0, _, _, _ => .error .outOfFuel
  | fuel + 1, g, nid, status =>
    match heapLookup g nid with
    | none => .error (.ErrNodeNotFound nid)
    | some n =>
      if n.deleted then .error (.ErrNodeDeleted nid) else
      if n.status ≠ .Waiting then
        .error (.ErrNodeResolutionAlreadySet nid n.status status)
      else
      let g1 := setNode g nid { n with status := status }
      if status = .Waiting then .ok g1 else
      let outbound := (lookupA g1.connectionsFromNode nid).getD []
      notifyOutbound (fun acc dst =>
        dependencyResolvedCore (resolveNodeF fuel) acc dst nid status) g1
        outbound

/-- dependencyResolved of dg.go at a given recursion fuel. -/
def dependencyResolvedF (fuel : Nat) :
    DGraph → String → String → ResolutionStatus → Except DGError DGraph :=
  dependencyResolvedCore (resolveNodeF fuel)

/-- DisconnectInbound of dg.go on the handle of nid: removes the edge
from fromNodeID out of both adjacency mappings (and nothing else). -/
def disconnectInbound (g : DGraph) (nid fromNodeID : String) :
    Except DGError DGraph :=
  match heapLookup g nid with
  | none => .error (.ErrNodeNotFound nid)
  | some n =>
    if n.deleted then .error (.ErrNodeDeleted nid) else
    if (mapLookup g fromNodeID).isSome = false then
      .error (.ErrNodeNotFound fromNodeID)
    else
    if fromNodeID ∈ (lookupA g.connectionsToNode nid).getD [] then
      .ok { g with
        connectionsToNode :=
          updateA g.connectionsToNode nid (fun s => setErase s fromNodeID)
        connectionsFromNode :=
          updateA g.connectionsFromNode fromNodeID (fun s => setErase s nid) }
    else
      .error (.ErrConnectionDoesNotExist nid fromNodeID)

/-- DisconnectOutbound of dg.go on the handle of nid. -/
def disconnectOutbound (g : DGraph) (nid toNodeID : String) :
    Except DGError DGraph :=
  match heapLookup g nid with
  | none => .error (.ErrNodeNotFound nid)
  | some n =>
    if n.deleted then .error (.ErrNodeDeleted nid) else
    if (mapLookup g toNodeID).isSome = false then
      .error (.ErrNodeNotFound toNodeID)
    else
    if toNodeID ∈ (lookupA g.connectionsFromNode nid).getD [] then
      .ok { g with
        connectionsFromNode :=
          updateA g.connectionsFromNode nid (fun s => setErase s toNodeID)
        connectionsToNode :=
          updateA g.connectionsToNode toNodeID (fun s => setErase s nid) }
    else
      .error (.ErrConnectionDoesNotExist nid toNodeID)

/-- Remove of dg.go: deletes every incident edge from both adjacency
mappings, deletes the node from the Go map (the heap keeps the record
with deleted = true, which is what the live handle observes). -/
def removeNode (g : DGraph) (nid : String) : Except DGError DGraph :=
  match heapLookup g nid with
  | none => .error (.ErrNodeNotFound nid)
  | some n =>
    if n.deleted then .error (.ErrNodeDeleted nid) else
    let outs := (lookupA g.connectionsFromNode nid).getD []
    let to1 :=
      outs.foldl (fun m t => updateA m t (fun s => setErase s nid))
        g.connectionsToNode
    let g1 := { g with connectionsToNode := to1 }
    let g2 := { g1 with connectionsFromNode := eraseA g1.connectionsFromNode nid }
    let ins := (lookupA g2.connectionsToNode nid).getD []
    let from3 :=
      ins.foldl (fun m t => updateA m t (fun s => setErase s nid))
        g2.connectionsFromNode
    let g3 := { g2 with connectionsFromNode := from3 }
    let g4 := { g3 with connectionsToNode := eraseA g3.connectionsToNode nid }
    let nodes5 := updateA g4.nodes nid (fun m => { m with deleted := true })
    .ok { g4 with nodes := nodes5 }

/-- Selection step of HasCycles of dg.go: the keys whose inbound set is
empty. -/
def zeroInbound (rev : AssocMap (List String)) : List String :=
  (rev.filter (fun p => p.2 = [])).map Prod.fst

/-- Removal step of HasCycles of dg.go: drop the selected keys and purge
them from every remaining inbound set. -/
def stripNodes (rev : AssocMap (List String)) (zs : List String) :
    AssocMap (List String) :=
  (rev.filter (fun p => p.1 ∉ zs)).map
    (fun p => (p.1, p.2.filter (fun s => s ∉ zs)))

theorem length_filter_lt_of_mem_not {α : Type} {l : List α} {p : α → Bool}
    {x : α} (hx : x ∈ l) (hpx : p x = false) :
    (l.filter p).length < l.length := by
  induction l with
  | nil => simp at hx
  | cons a rest ih =>
      rcases List.mem_cons.mp hx with h | h
      · subst h
        simp only [List.filter_cons, hpx]
        exact Nat.lt_succ_of_le (List.length_filter_le _ _)
      · by_cases hpa : p a
        · simp only [List.filter_cons, hpa, if_pos, List.length_cons]
          exact Nat.succ_lt_succ (ih h)
        · simp only [List.filter_cons, Bool.not_eq_true] at hpa ⊢
          rw [hpa]
          exact Nat.lt_succ_of_lt (ih h)

theorem stripNodes_length_lt (rev : AssocMap (List String))
    (h : zeroInbound rev ≠ []) :
    (stripNodes rev (zeroInbound rev)).length < rev.length := by
  obtain ⟨z, hz⟩ := List.exists_mem_of_ne_nil _ h
  obtain ⟨p, hp, hpz⟩ := List.mem_map.mp hz
  have hpmem : p ∈ rev := (List.mem_filter.mp hp).1
  have hzmem : p.1 ∈ zeroInbound rev := hpz ▸ hz
  have hlen : (stripNodes rev (zeroInbound rev)).length
      = (rev.filter (fun q => decide (q.1 ∉ zeroInbound rev))).length := by
    simp [stripNodes]
  rw [hlen]
  exact length_filter_lt_of_mem_not hpmem (by simp [hzmem])

/-- HasCycles of dg.go: Kahn-style stripping loop over (a clone of) the
reverse adjacency; true exactly when nodes remain once no key has an
empty inbound set.  The embedding is a pure function of the map, which
captures that the Go code works on a clone and leaves the graph
unchanged. -/
def kahnLoop (rev : AssocMap (List String)) : Bool :=
  let zs := zeroInbound rev
  if h : zs = [] then ! rev.isEmpty
  else kahnLoop (stripNodes rev zs)
termination_by rev.length
decreasing_by exact stripNodes_length_lt rev h

/-- HasCycles of dg.go, applied to the graph's reverse adjacency. -/
def hasCycles (g : DGraph) : Bool := kahnLoop g.connectionsToNode

theorem setNode_self (g : DGraph) (id : String) (n : DNode)
    (hn : heapLookup g id = some n) : setNode g id n = g := by
  have : updateA g.nodes id (fun _ => n) = g.nodes :=
    updateA_self _ _ _ (fun v hv => by
      have := hv.symm.trans hn
      simp at this
      exact this.symm)
  simp [setNode, this]

/-- Scenario graph of claim C1: a chain Dep to Mid to Top of And edges,
built through the public operations, seeded with PushStartingNodes, then
Dep resolved as Unresolvable. -/
def buildChainUnresolvable (dep mid top : String) : Except DGError DGraph := do
  let g0 ← addNode newGraph dep
  let g1 ← addNode g0 mid
  let g2 ← addNode g1 top
  let g3 ← connectNodes g2 dep mid .AndDependency
  let g4 ← connectNodes g3 mid top .AndDependency
  resolveNodeF 5 (pushStartingNodes g4) dep .Unresolvable

/-- Claim C1: for every chain Dep to Mid to Top connected with And
dependencies, after PushStartingNodes and ResolveNode(Dep, Unresolvable)
both Mid and Top are on the ready queue with resolution status
Unresolvable: the Unresolvable outcome over an And edge marks each
destination ready, enqueues it, and recursively resolves it as
Unresolvable along its outbound edges. -/
theorem c1_and_unresolvable_chain (dep mid top : String)
    (h1 : dep ≠ mid) (h2 : dep ≠ top) (h3 : mid ≠ top) :
    ∃ g, buildChainUnresolvable dep mid top = .ok g ∧
      mid ∈ g.readyForProcessing ∧ top ∈ g.readyForProcessing ∧
      nodeStatus g mid = some .Unresolvable ∧
      nodeStatus g top = some .Unresolvable := by
  have h1' : mid ≠ dep := h1.symm
  have h2' : top ≠ dep := h2.symm
  have h3' : top ≠ mid := h3.symm
  refine ⟨⟨[(dep, ⟨false, false, .Unresolvable, []⟩),
            (mid, ⟨false, true, .Unresolvable, []⟩),
            (top, ⟨false, true, .Unresolvable, []⟩)],
           [dep, mid, top],
           [(dep, [mid]), (mid, [top]), (top, [])],
           [(dep, []), (mid, [dep]), (top, [mid])]⟩, ?_, ?_, ?_, ?_, ?_⟩
  · simp [buildChainUnresolvable, newGraph, addNode, connectNodes, resolveNodeF,
      dependencyResolvedCore, pushStartingNodes, heapLookup, mapLookup, setNode,
      lookupA, insertA, updateA, eraseA, setInsert, setErase, markOrsObviated,
      DNode.hasOutstandingDependency, notifyOutbound, List.foldl,
      bind, Except.bind, pure, Except.pure, h1, h2, h3, h1', h2', h3']
  · simp
  · simp
  · simp [nodeStatus, heapLookup, lookupA, h1', h3']
  · simp [nodeStatus, heapLookup, lookupA, h2', h3']

/-- Witness for claim C1 at concrete node ids. -/
theorem c1_and_unresolvable_chain_witness :
    ∃ g, buildChainUnresolvable "dep" "mid" "top" = .ok g ∧
      "mid" ∈ g.readyForProcessing ∧ "top" ∈ g.readyForProcessing ∧
      nodeStatus g "mid" = some .Unresolvable ∧
      nodeStatus g "top" = some .Unresolvable :=
  c1_and_unresolvable_chain "dep" "mid" "top"
    (by decide) (by decide) (by decide)

/-- Scenario of claim C3: D depends on C over CompletionAnd and on A over
And; after seeding and draining the queue, C resolves as Unresolvable,
then A as Resolved.  Both intermediate graphs are returned. -/
def buildCompletionAndMask (c a d : String) :
    Except DGError (DGraph × DGraph) := do
  let g0 ← addNode newGraph c
  let g1 ← addNode g0 a
  let g2 ← addNode g1 d
  let g3 ← connectNodes g2 c d .CompletionAndDependency
  let g4 ← connectNodes g3 a d .AndDependency
  let g5 := (popReadyNodes (pushStartingNodes g4)).2
  let g6 ← resolveNodeF 5 g5 c .Unresolvable
  let g7 ← resolveNodeF 5 g6 a .Resolved
  pure (g6, g7)

/-- Claim C3: with exactly a CompletionAnd dependency on C and an And
dependency on A, ResolveNode(C, Unresolvable) leaves the ready queue
empty and D Waiting (no propagation through CompletionAnd), and the
subsequent ResolveNode(A, Resolved) puts D on the ready queue with
status Waiting, not Unresolvable. -/
theorem c3_completion_and_masks_failure (c a d : String)
    (h1 : c ≠ a) (h2 : c ≠ d) (h3 : a ≠ d) :
    ∃ g1 g2, buildCompletionAndMask c a d = .ok (g1, g2) ∧
      g1.readyForProcessing = [] ∧ nodeStatus g1 d = some .Waiting ∧
      d ∈ g2.readyForProcessing ∧ nodeStatus g2 d = some .Waiting := by
  have h1' : a ≠ c := h1.symm
  have h2' : d ≠ c := h2.symm
  have h3' : d ≠ a := h3.symm
  refine ⟨⟨[(c, ⟨false, false, .Unresolvable, []⟩),
            (a, ⟨false, false, .Waiting, []⟩),
            (d, ⟨false, false, .Waiting, [(a, .AndDependency)]⟩)],
           [],
           [(c, [d]), (a, [d]), (d, [])],
           [(c, []), (a, []), (d, [c, a])]⟩,
          ⟨[(c, ⟨false, false, .Unresolvable, []⟩),
            (a, ⟨false, false, .Resolved, []⟩),
            (d, ⟨false, true, .Waiting, []⟩)],
           [d],
           [(c, [d]), (a, [d]), (d, [])],
           [(c, []), (a, []), (d, [c, a])]⟩, ?_, ?_, ?_, ?_, ?_⟩
  · simp [buildCompletionAndMask, newGraph, addNode, connectNodes, resolveNodeF,
      dependencyResolvedCore, pushStartingNodes, popReadyNodes, heapLookup,
      mapLookup, setNode, lookupA, insertA, updateA, eraseA, setInsert,
      setErase, markOrsObviated, DNode.hasOutstandingDependency,
      notifyOutbound, List.foldl, bind, Except.bind, pure, Except.pure,
      h1, h2, h3, h1', h2', h3']
  · rfl
  · simp [nodeStatus, heapLookup, lookupA, h2', h3']
  · simp
  · simp [nodeStatus, heapLookup, lookupA, h2', h3']

/-- Witness for claim C3 at concrete node ids. -/
theorem c3_completion_and_masks_failure_witness :
    ∃ g1 g2, buildCompletionAndMask "c" "a" "d" = .ok (g1, g2) ∧
      g1.readyForProcessing = [] ∧ nodeStatus g1 "d" = some .Waiting ∧
      "d" ∈ g2.readyForProcessing ∧ nodeStatus g2 "d" = some .Waiting :=
  c3_completion_and_masks_failure "c" "a" "d"
    (by decide) (by decide) (by decide)

/-- Claim C10: resolving a non-deleted Waiting node with the Waiting
status returns no error, performs no propagation, and leaves the graph
(and hence the node's status) unchanged, so any later ResolveNode on the
same node behaves exactly as if the Waiting resolution had not happened;
in particular, on a node with no outbound connections a later
ResolveNode(Resolved) or ResolveNode(Unresolvable) succeeds and just
records the status. -/
theorem c10_waiting_resolution_not_consumed (g : DGraph) (id : String)
    (n : DNode) (fuel : Nat)
    (hn : heapLookup g id = some n) (hdel : n.deleted = false)
    (hst : n.status = .Waiting) :
    resolveNodeF (fuel + 1) g id .Waiting = .ok g ∧
    (∀ fuel2 st,
      (resolveNodeF (fuel + 1) g id .Waiting).bind
          (fun g' => resolveNodeF fuel2 g' id st) =
        resolveNodeF fuel2 g id st) ∧
    ((lookupA g.connectionsFromNode id).getD [] = [] →
      ∀ st, st ≠ .Waiting →
        resolveNodeF (fuel + 1) g id st =
          .ok (setNode g id { n with status := st })) := by
  obtain ⟨ndel, nready, nstat, nout⟩ := n
  simp only at hdel hst
  subst hdel hst
  have hfirst : resolveNodeF (fuel + 1) g id .Waiting = .ok g := by
    simp [resolveNodeF, hn, setNode_self g id _ hn]
  refine ⟨hfirst, fun fuel2 st => by rw [hfirst]; rfl, fun hout st hstw => ?_⟩
  simp [resolveNodeF, hn, hstw, setNode, hout, notifyOutbound, pure, Except.pure]

/-- Witness for claim C10 on a one-node graph. -/
theorem c10_waiting_resolution_not_consumed_witness :
    resolveNodeF 3
        ⟨[("a", ⟨false, false, .Waiting, []⟩)], [], [("a", [])], [("a", [])]⟩
        "a" .Waiting =
      .ok ⟨[("a", ⟨false, false, .Waiting, []⟩)], [], [("a", [])], [("a", [])]⟩ :=
  (c10_waiting_resolution_not_consumed
      ⟨[("a", ⟨false, false, .Waiting, []⟩)], [], [("a", [])], [("a", [])]⟩
      "a" ⟨false, false, .Waiting, []⟩ 2 (by decide) rfl rfl).1

/-- Preservation property of the resolution engine: a run that returns ok
keeps every node in the heap, never flips deleted, never changes a
terminal (non-Waiting) status, never unsets ready, and never removes an
id from the ready queue. -/
def PresMono (g g' : DGraph) : Prop :=
  (∀ id n, heapLookup g id = some n → ∃ n', heapLookup g' id = some n' ∧
      n'.deleted = n.deleted ∧
      (n.status ≠ .Waiting → n'.status = n.status) ∧
      (n.ready = true → n'.ready = true)) ∧
  (∀ id, id ∈ g.readyForProcessing → id ∈ g'.readyForProcessing)

theorem presMono_refl (g : DGraph) : PresMono g g :=
  ⟨fun _ n hn => ⟨n, hn, rfl, fun _ => rfl, fun h => h⟩, fun _ h => h⟩

theorem presMono_trans {g1 g2 g3 : DGraph} (h12 : PresMono g1 g2)
    (h23 : PresMono g2 g3) : PresMono g1 g3 := by
  refine ⟨fun id n hn => ?_, fun id hq => h23.2 id (h12.2 id hq)⟩
  obtain ⟨n2, hn2, hd2, hs2, hr2⟩ := h12.1 id n hn
  obtain ⟨n3, hn3, hd3, hs3, hr3⟩ := h23.1 id n2 hn2
  refine ⟨n3, hn3, hd3.trans hd2, fun hw => ?_, fun hr => hr3 (hr2 hr)⟩
  have h2 := hs2 hw
  exact (hs3 (by rw [h2]; exact hw)).trans h2

theorem presMono_setNode {g : DGraph} {id : String} {n : DNode} (n' : DNode)
    (hn : heapLookup g id = some n)
    (h1 : n'.deleted = n.deleted)
    (h2 : n.status ≠ .Waiting → n'.status = n.status)
    (h3 : n.ready = true → n'.ready = true) :
    PresMono g (setNode g id n') := by
  refine ⟨fun m nm hm => ?_, fun m hq => hq⟩
  by_cases hmid : m = id
  · subst hmid
    have hnm : nm = n := by
      have := hm.symm.trans hn
      simpa using this
    subst hnm
    refine ⟨n', ?_, h1, h2, h3⟩
    have hm' : lookupA g.nodes m = some nm := hm
    simp [heapLookup, setNode, lookupA_updateA, hm']
  · exact ⟨nm, by simpa [heapLookup, setNode, lookupA_updateA, hmid] using hm,
      rfl, fun _ => rfl, fun h => h⟩

theorem presMono_enqueue (g : DGraph) (x : String) :
    PresMono g { g with readyForProcessing := setInsert g.readyForProcessing x } := by
  refine ⟨fun id n hn => ⟨n, hn, rfl, fun _ => rfl, fun h => h⟩, fun id hq => ?_⟩
  simp only [mem_setInsert]
  exact Or.inl hq

theorem notifyOutbound_presMono {f : DGraph → String → Except DGError DGraph}
    (hf : ∀ g x g', f g x = .ok g' → PresMono g g') :
    ∀ (l : List String) (g g' : DGraph),
      notifyOutbound f g l = .ok g' → PresMono g g' := by
  intro l
  induction l with
  | nil =>
      intro g g' h
      simp only [notifyOutbound] at h
      obtain rfl := Except.ok.inj h
      exact presMono_refl _
  | cons x xs ih =>
      intro g g' h
      simp only [notifyOutbound] at h
      cases hfx : f g x with
      | error e => rw [hfx] at h; simp at h
      | ok g1 =>
          rw [hfx] at h
          exact presMono_trans (hf g x g1 hfx) (ih g1 g' h)

theorem depCore_presMono
    (recur : DGraph → String → ResolutionStatus → Except DGError DGraph)
    (hrec : ∀ g nid st g', recur g nid st = .ok g' → PresMono g g') :
    ∀ (g : DGraph) (nid depId : String) (res : ResolutionStatus) (g' : DGraph),
      dependencyResolvedCore recur g nid depId res = .ok g' → PresMono g g' := by
  intro g nid depId res g' h
  simp only [dependencyResolvedCore] at h
  cases hlook : heapLookup g nid with
  | none => simp [hlook] at h
  | some n =>
  simp only [hlook] at h
  split at h
  · simp at h
  split at h
  · simp at h
  cases hout : lookupA n.outstandingDependencies depId with
  | none => simp only [hout] at h; split at h <;> simp at h
  | some ty =>
  simp only [hout] at h
  have hstep1 : PresMono g (setNode g nid
      { n with outstandingDependencies := eraseA n.outstandingDependencies depId }) :=
    presMono_setNode _ hlook rfl (fun _ => rfl) (fun hr => hr)
  have hlook1 : heapLookup (setNode g nid
      { n with outstandingDependencies := eraseA n.outstandingDependencies depId }) nid =
      some { n with outstandingDependencies := eraseA n.outstandingDependencies depId } := by
    have hl : lookupA g.nodes nid = some n := hlook
    simp [heapLookup, setNode, lookupA_updateA, hl]
  split at h
  · obtain rfl := Except.ok.inj h
    exact hstep1
  split at h
  · split at h
    · refine presMono_trans hstep1 (presMono_trans
        (presMono_setNode _ hlook1 ?_ ?_ ?_)
        (presMono_trans (presMono_enqueue _ _) (hrec _ _ _ _ h)))
      · rfl
      · intro _; rfl
      · intro _; rfl
    · obtain rfl := Except.ok.inj h
      exact hstep1
  · split at h <;> split at h <;> obtain rfl := Except.ok.inj h
    · refine presMono_trans hstep1 (presMono_trans
        (presMono_setNode _ hlook1 ?_ ?_ ?_) (presMono_enqueue _ _))
      · rfl
      · intro _; rfl
      · intro _; rfl
    · refine presMono_trans hstep1 (presMono_setNode _ hlook1 ?_ ?_ ?_)
      · rfl
      · intro _; rfl
      · intro hr; exact hr
    · refine presMono_trans hstep1 (presMono_trans
        (presMono_setNode _ hlook1 ?_ ?_ ?_) (presMono_enqueue _ _))
      · rfl
      · intro _; rfl
      · intro _; rfl
    · refine presMono_trans hstep1 (presMono_setNode _ hlook1 ?_ ?_ ?_)
      · rfl
      · intro _; rfl
      · intro hr; exact hr

theorem resolveNodeF_presMono :
    ∀ (fuel : Nat) (g : DGraph) (nid : String) (st : ResolutionStatus)
      (g' : DGraph), resolveNodeF fuel g nid st = .ok g' → PresMono g g' := by
  intro fuel
  induction fuel with
  | zero => intro g nid st g' h; simp [resolveNodeF] at h
  | succ fuel ih =>
      intro g nid st g' h
      simp only [resolveNodeF] at h
      cases hlook : heapLookup g nid with
      | none => simp [hlook] at h
      | some n =>
      simp only [hlook] at h
      split at h
      · simp at h
      split at h
      · simp at h
      next hnw =>
      have hw : n.status = .Waiting := by
        by_contra hc
        exact hnw (by simpa using hc)
      have hstep1 : PresMono g (setNode g nid { n with status := st }) :=
        presMono_setNode _ hlook rfl (fun hc => absurd hw hc) (fun hr => hr)
      split at h
      · obtain rfl := Except.ok.inj h
        exact hstep1
      · exact presMono_trans hstep1
          (notifyOutbound_presMono
            (fun gg x gg' hx => depCore_presMono _ ih gg x nid st gg' hx)
            _ _ _ h)

theorem resolveNodeF_alreadySet (g : DGraph) (id : String) (n : DNode)
    (st : ResolutionStatus) (fuel : Nat)
    (hn : heapLookup g id = some n) (hdel : n.deleted = false)
    (hst : n.status ≠ .Waiting) :
    resolveNodeF (fuel + 1) g id st =
      .error (.ErrNodeResolutionAlreadySet id n.status st) := by
  simp [resolveNodeF, hn, hdel, hst]

/-- Claim C6: ResolveNode returns NodeDeleted on a deleted node and
NodeResolutionAlreadySet on a (live) node whose status is no longer
Waiting; in particular, after a first successful ResolveNode with
Resolved or Unresolvable, the node's status is the resolved one and
every second ResolveNode fails with NodeResolutionAlreadySet reporting
that status (in this pure embedding a failed call trivially leaves the
graph unchanged, matching the Go guard that returns before mutating). -/
theorem c6_resolution_error_guards :
    (∀ (g : DGraph) (id : String) (n : DNode) (st : ResolutionStatus)
        (fuel : Nat), heapLookup g id = some n → n.deleted = true →
        resolveNodeF (fuel + 1) g id st = .error (.ErrNodeDeleted id)) ∧
    (∀ (g : DGraph) (id : String) (n : DNode) (st : ResolutionStatus)
        (fuel : Nat), heapLookup g id = some n → n.deleted = false →
        n.status ≠ .Waiting →
        resolveNodeF (fuel + 1) g id st =
          .error (.ErrNodeResolutionAlreadySet id n.status st)) ∧
    (∀ (fuel : Nat) (g : DGraph) (id : String) (st : ResolutionStatus)
        (g' : DGraph), st ≠ .Waiting → resolveNodeF fuel g id st = .ok g' →
        nodeStatus g' id = some st ∧
        ∀ (fuel2 : Nat) (st2 : ResolutionStatus),
          resolveNodeF (fuel2 + 1) g' id st2 =
            .error (.ErrNodeResolutionAlreadySet id st st2)) := by
  refine ⟨fun g id n st fuel hn hdel => by simp [resolveNodeF, hn, hdel],
    fun g id n st fuel hn hdel hst =>
      resolveNodeF_alreadySet g id n st fuel hn hdel hst,
    fun fuel g id st g' hstw h => ?_⟩
  cases fuel with
  | zero => simp [resolveNodeF] at h
  | succ fuel =>
  simp only [resolveNodeF] at h
  cases hlook : heapLookup g id with
  | none => simp [hlook] at h
  | some n =>
  simp only [hlook] at h
  split at h
  · simp at h
  next hdel =>
  split at h
  · simp at h
  next hnw =>
  have hlook1 : heapLookup (setNode g id { n with status := st }) id =
      some { n with status := st } := by
    have hl : lookupA g.nodes id = some n := hlook
    simp [heapLookup, setNode, lookupA_updateA, hl]
  have hpres : PresMono (setNode g id { n with status := st }) g' :=
    notifyOutbound_presMono
      (fun gg x gg' hx =>
        depCore_presMono _ (resolveNodeF_presMono fuel) gg x id st gg' hx)
      _ _ _ h
  obtain ⟨n', hn', hdel', hst', _⟩ := hpres.1 id _ hlook1
  have hs' : n'.status = st := hst' (by simpa using hstw)
  have hnd : n.deleted = false := by simpa using hdel
  have hd' : n'.deleted = false := hdel'.trans hnd
  constructor
  · simp [nodeStatus, hn', hs']
  · intro fuel2 st2
    have := resolveNodeF_alreadySet g' id n' st2 fuel2 hn' hd'
      (by rw [hs']; exact hstw)
    rwa [hs'] at this

/-- Witness for claim C6 on concrete one-node graphs: a deleted node, an
already-resolved node, and a fresh node resolved twice. -/
theorem c6_resolution_error_guards_witness :
    resolveNodeF 1 ⟨[("a", ⟨true, false, .Waiting, []⟩)], [], [], []⟩
        "a" .Resolved = .error (.ErrNodeDeleted "a") ∧
    resolveNodeF 1 ⟨[("b", ⟨false, false, .Resolved, []⟩)], [], [], []⟩
        "b" .Resolved =
      .error (.ErrNodeResolutionAlreadySet "b" .Resolved .Resolved) ∧
    nodeStatus (⟨[("c", ⟨false, false, .Resolved, []⟩)], [],
        [("c", [])], [("c", [])]⟩ : DGraph) "c" = some .Resolved ∧
    resolveNodeF 1 ⟨[("c", ⟨false, false, .Resolved, []⟩)], [],
        [("c", [])], [("c", [])]⟩ "c" .Unresolvable =
      .error (.ErrNodeResolutionAlreadySet "c" .Resolved .Unresolvable) :=
  ⟨c6_resolution_error_guards.1 _ "a" ⟨true, false, .Waiting, []⟩ .Resolved 0
      (by decide) rfl,
   c6_resolution_error_guards.2.1 _ "b" ⟨false, false, .Resolved, []⟩
      .Resolved 0 (by decide) rfl (by decide),
   (c6_resolution_error_guards.2.2 1
      ⟨[("c", ⟨false, false, .Waiting, []⟩)], [], [("c", [])], [("c", [])]⟩
      "c" .Resolved
      ⟨[("c", ⟨false, false, .Resolved, []⟩)], [], [("c", [])], [("c", [])]⟩
      (by decide) rfl).1,
   (c6_resolution_error_guards.2.2 1
      ⟨[("c", ⟨false, false, .Waiting, []⟩)], [], [("c", [])], [("c", [])]⟩
      "c" .Resolved
      ⟨[("c", ⟨false, false, .Resolved, []⟩)], [], [("c", [])], [("c", [])]⟩
      (by decide) rfl).2 0 .Unresolvable⟩

theorem lookupA_markOrsObviated (m : AssocMap DependencyType) (k : String) :
    lookupA (markOrsObviated m) k =
      match lookupA m k with
      | some .OrDependency => some .ObviatedDependency
      | other => other := by
  induction m with
  | nil => simp [markOrsObviated, lookupA]
  | cons p rest ih =>
      obtain ⟨a, b⟩ := p
      by_cases hk : k = a
      · subst hk
        cases b <;> simp [markOrsObviated, lookupA]
      · have hmap : markOrsObviated ((a, b) :: rest) =
            (if b = .OrDependency then (a, .ObviatedDependency) else (a, b))
              :: markOrsObviated rest := by
          cases b <;> simp [markOrsObviated]
        rw [hmap]
        cases b <;> simp [lookupA, hk, ih]

theorem markOrsObviated_no_or (m : AssocMap DependencyType) :
    (markOrsObviated m).any
      (fun p => decide (p.2 = DependencyType.OrDependency)) = false := by
  induction m with
  | nil => simp [markOrsObviated]
  | cons p rest ih =>
      obtain ⟨a, b⟩ := p
      cases b <;> simp [markOrsObviated, List.any_cons] <;>
        simpa [markOrsObviated] using ih

theorem lookupA_eraseA_self_of_nodup {α : Type} {m : AssocMap α} {k : String}
    (hn : (m.map Prod.fst).Nodup) : lookupA (eraseA m k) k = none := by
  induction m with
  | nil => simp [eraseA, lookupA]
  | cons p rest ih =>
      obtain ⟨a, b⟩ := p
      simp only [List.map_cons, List.nodup_cons] at hn
      by_cases hk : k = a
      · subst hk
        simp only [eraseA, if_pos rfl]
        cases hl : lookupA rest k with
        | none => exact hl
        | some v =>
            exact absurd (List.mem_map.mpr ⟨(k, v), lookupA_mem hl, rfl⟩) hn.1
      · simp [eraseA, lookupA, hk, Ne.symm, ih hn.2]

/-- Claim C2: when a node D with two or more outstanding Or dependencies
is notified (dependencyResolved) that one Or source resolved as
Resolved, every other Or entry still in D's outstanding map is demoted
to Obviated (non-Or entries keep their type, the resolving source
leaves the map), and D becomes ready exactly when the resulting
outstanding map contains no entry of type And, Or, or CompletionAnd (in
which case D is also enqueued). -/
theorem c2_or_short_circuit (g : DGraph) (d s : String) (n : DNode) (fuel : Nat)
    (hn : heapLookup g d = some n) (hdel : n.deleted = false)
    (hready : n.ready = false)
    (hnodup : (n.outstandingDependencies.map Prod.fst).Nodup)
    (hs : lookupA n.outstandingDependencies s = some .OrDependency)
    (htwo : 2 ≤ (n.outstandingDependencies.filter
        (fun p => p.2 = DependencyType.OrDependency)).length) :
    ∃ g' n', dependencyResolvedF fuel g d s .Resolved = .ok g' ∧
      heapLookup g' d = some n' ∧
      (∀ k, k ≠ s → lookupA n'.outstandingDependencies k =
        (match lookupA n.outstandingDependencies k with
         | some .OrDependency => some .ObviatedDependency
         | other => other)) ∧
      lookupA n'.outstandingDependencies s = none ∧
      (n'.ready = true ↔
        (n'.hasOutstandingDependency .AndDependency = false ∧
         n'.hasOutstandingDependency .OrDependency = false ∧
         n'.hasOutstandingDependency .CompletionAndDependency = false)) ∧
      (n'.ready = true → d ∈ g'.readyForProcessing) := by
  have hl : lookupA g.nodes d = some n := hn
  have hmark : ∀ k, k ≠ s →
      lookupA (markOrsObviated (eraseA n.outstandingDependencies s)) k =
      (match lookupA n.outstandingDependencies k with
       | some .OrDependency => some .ObviatedDependency
       | other => other) := by
    intro k hk
    rw [lookupA_markOrsObviated, lookupA_eraseA_ne _ _ _ hk]
  have hmarks : lookupA
      (markOrsObviated (eraseA n.outstandingDependencies s)) s = none := by
    rw [lookupA_markOrsObviated, lookupA_eraseA_self_of_nodup hnodup]
  have hnoOr := markOrsObviated_no_or (eraseA n.outstandingDependencies s)
  simp only [dependencyResolvedF, dependencyResolvedCore, hn, hdel, hs]
  simp only [reduceCtorEq, reduceIte, false_and, if_false, false_or,
    Bool.or_false, ne_eq]
  split
  next hcond =>
    simp only [DNode.hasOutstandingDependency, Bool.or_eq_true, not_or,
      Bool.not_eq_true] at hcond
    refine ⟨_, { deleted := false, ready := true, status := n.status, outstandingDependencies := markOrsObviated (eraseA n.outstandingDependencies s) }, rfl, ?_, ?_, ?_, ?_, ?_⟩
    · simp [heapLookup, setNode, lookupA_updateA, hl]
    · exact fun k hk => hmark k hk
    · exact hmarks
    · constructor
      · intro _
        exact ⟨by simpa [DNode.hasOutstandingDependency] using hcond.1,
          by simpa [DNode.hasOutstandingDependency] using hnoOr,
          by simpa [DNode.hasOutstandingDependency] using hcond.2⟩
      · intro _; rfl
    · intro _
      simp [setNode, mem_setInsert]
  next hcond =>
    simp only [DNode.hasOutstandingDependency, Bool.or_eq_true] at hcond
    have hcond' : ((markOrsObviated (eraseA n.outstandingDependencies s)).any
          (fun p => decide (p.2 = DependencyType.AndDependency)) = true) ∨
        ((markOrsObviated (eraseA n.outstandingDependencies s)).any
          (fun p => decide (p.2 = DependencyType.CompletionAndDependency)) = true) := by
      by_contra hc
      push_neg at hc
      exact hcond (by simp [hc.1, hc.2])
    refine ⟨_, { deleted := false, ready := n.ready, status := n.status, outstandingDependencies := markOrsObviated (eraseA n.outstandingDependencies s) }, rfl, ?_, ?_, ?_, ?_, ?_⟩
    · simp [heapLookup, setNode, lookupA_updateA, hl]
    · exact fun k hk => hmark k hk
    · exact hmarks
    · constructor
      · intro hr
        simp [hready] at hr
      · rintro ⟨hA, hO, hC⟩
        simp only [DNode.hasOutstandingDependency] at hA hC
        rcases hcond' with h1 | h1
        · rw [hA] at h1; cases h1
        · rw [hC] at h1; cases h1
    · intro hr
      simp [hready] at hr

/-- Witness for claim C2: a node with exactly two outstanding Or
dependencies, one of which resolves. -/
theorem c2_or_short_circuit_witness :
    ∃ g' n', dependencyResolvedF 1
        ⟨[("d", ⟨false, false, .Waiting,
          [("o1", .OrDependency), ("o2", .OrDependency)]⟩)], [], [], []⟩
        "d" "o1" .Resolved = .ok g' ∧
      heapLookup g' "d" = some n' ∧
      (∀ k, k ≠ "o1" → lookupA n'.outstandingDependencies k =
        (match lookupA [("o1", DependencyType.OrDependency),
            ("o2", DependencyType.OrDependency)] k with
         | some .OrDependency => some .ObviatedDependency
         | other => other)) ∧
      lookupA n'.outstandingDependencies "o1" = none ∧
      (n'.ready = true ↔
        (n'.hasOutstandingDependency .AndDependency = false ∧
         n'.hasOutstandingDependency .OrDependency = false ∧
         n'.hasOutstandingDependency .CompletionAndDependency = false)) ∧
      (n'.ready = true → "d" ∈ g'.readyForProcessing) :=
  c2_or_short_circuit
    ⟨[("d", ⟨false, false, .Waiting,
      [("o1", .OrDependency), ("o2", .OrDependency)]⟩)], [], [], []⟩
    "d" "o1"
    ⟨false, false, .Waiting, [("o1", .OrDependency), ("o2", .OrDependency)]⟩
    1 rfl rfl rfl (by decide) (by decide) (by decide)

theorem pushStep_mem_mono :
    ∀ (l : AssocMap DNode) (q : List String) (x : String), x ∈ q →
      x ∈ l.foldl (fun q p =>
        if p.2.deleted then q
        else if p.2.outstandingDependencies = [] then setInsert q p.1 else q) q := by
  intro l
  induction l with
  | nil => intro q x hx; simpa using hx
  | cons p rest ih =>
      intro q x hx
      simp only [List.foldl_cons]
      apply ih
      by_cases h1 : p.2.deleted
      · simpa [h1] using hx
      · by_cases h2 : p.2.outstandingDependencies = []
        · simp [h1, h2, mem_setInsert, hx]
        · simpa [h1, h2] using hx

theorem pushStep_complete :
    ∀ (l : AssocMap DNode) (q : List String) (id : String) (n : DNode),
      (id, n) ∈ l → n.deleted = false → n.outstandingDependencies = [] →
      id ∈ l.foldl (fun q p =>
        if p.2.deleted then q
        else if p.2.outstandingDependencies = [] then setInsert q p.1 else q) q := by
  intro l
  induction l with
  | nil => intro q id n h; simp at h
  | cons p rest ih =>
      intro q id n h hdel hout
      rcases List.mem_cons.mp h with h1 | h1
      · subst h1
        simp only [List.foldl_cons, hdel, Bool.false_eq_true, if_false, hout,
          if_true, reduceIte]
        exact pushStep_mem_mono rest _ id (by simp [mem_setInsert])
      · simp only [List.foldl_cons]
        exact ih _ id n h1 hdel hout

theorem pushStep_sound :
    ∀ (l : AssocMap DNode) (q : List String) (x : String),
      x ∈ l.foldl (fun q p =>
        if p.2.deleted then q
        else if p.2.outstandingDependencies = [] then setInsert q p.1 else q) q →
      x ∈ q ∨ ∃ p ∈ l, p.1 = x ∧ p.2.deleted = false ∧
        p.2.outstandingDependencies = [] := by
  intro l
  induction l with
  | nil => intro q x hx; exact Or.inl (by simpa using hx)
  | cons p rest ih =>
      intro q x hx
      simp only [List.foldl_cons] at hx
      rcases ih _ x hx with h1 | ⟨p', hp', h2⟩
      · by_cases hd : p.2.deleted
        · exact Or.inl (by simpa [hd] using h1)
        · by_cases ho : p.2.outstandingDependencies = []
          · rw [if_neg hd, if_pos ho, mem_setInsert] at h1
            rcases h1 with h1 | h1
            · exact Or.inl h1
            · exact Or.inr ⟨p, List.mem_cons_self _ _,
                h1.symm, by simpa using hd, ho⟩
          · exact Or.inl (by simpa [hd, ho] using h1)
      · exact Or.inr ⟨p', List.mem_cons_of_mem _ hp', h2⟩

theorem dependencyResolved_credit_ready (g : DGraph) (d s : String) (n : DNode)
    (ty : DependencyType) (res : ResolutionStatus) (fuel : Nat)
    (hn : heapLookup g d = some n) (hdel : n.deleted = false)
    (hready : n.ready = false)
    (hs : lookupA n.outstandingDependencies s = some ty)
    (hobv : ty ≠ .ObviatedDependency)
    (hcase : res = .Resolved ∨ (res = .Unresolvable ∧ ty = .CompletionAndDependency)) :
    ∃ g' n', dependencyResolvedF fuel g d s res = .ok g' ∧
      heapLookup g' d = some n' ∧
      (n'.ready = true ↔
        (n'.hasOutstandingDependency .AndDependency = false ∧
         n'.hasOutstandingDependency .OrDependency = false ∧
         n'.hasOutstandingDependency .CompletionAndDependency = false)) ∧
      (n'.ready = true → d ∈ g'.readyForProcessing) := by
  have hl : lookupA g.nodes d = some n := hn
  have hw : ¬ (res = .Waiting) := by
    rcases hcase with h | ⟨h, _⟩ <;> simp [h]
  have hunres : ¬ (res = .Unresolvable ∧ ty ≠ .CompletionAndDependency) := by
    rcases hcase with h | ⟨h, h2⟩
    · simp [h]
    · simp [h, h2]
  simp only [dependencyResolvedF, dependencyResolvedCore, hn, hdel, hs,
    if_neg hw, if_neg hobv, if_neg hunres, Bool.false_eq_true, if_false,
    reduceIte, ne_eq]
  by_cases hty : ty = DependencyType.OrDependency
  · subst hty
    have hnoOr := markOrsObviated_no_or (eraseA n.outstandingDependencies s)
    simp only [reduceIte, Bool.or_false]
    split
    next hcond =>
      simp only [DNode.hasOutstandingDependency, Bool.or_eq_true, not_or,
        Bool.not_eq_true] at hcond
      refine ⟨_, { deleted := false, ready := true, status := n.status, outstandingDependencies := markOrsObviated (eraseA n.outstandingDependencies s) }, rfl, ?_, ?_, ?_⟩
      · simp [heapLookup, setNode, lookupA_updateA, hl]
      · constructor
        · intro _
          exact ⟨by simpa [DNode.hasOutstandingDependency] using hcond.1,
            by simpa [DNode.hasOutstandingDependency] using hnoOr,
            by simpa [DNode.hasOutstandingDependency] using hcond.2⟩
        · intro _; rfl
      · intro _
        simp [setNode, mem_setInsert]
    next hcond =>
      simp only [DNode.hasOutstandingDependency, Bool.or_eq_true] at hcond
      have hcond' : ((markOrsObviated (eraseA n.outstandingDependencies s)).any
            (fun p => decide (p.2 = DependencyType.AndDependency)) = true) ∨
          ((markOrsObviated (eraseA n.outstandingDependencies s)).any
            (fun p => decide (p.2 = DependencyType.CompletionAndDependency)) = true) := by
        by_contra hc
        push_neg at hc
        exact hcond (by simp [hc.1, hc.2])
      refine ⟨_, { deleted := false, ready := n.ready, status := n.status, outstandingDependencies := markOrsObviated (eraseA n.outstandingDependencies s) }, rfl, ?_, ?_, ?_⟩
      · simp [heapLookup, setNode, lookupA_updateA, hl]
      · constructor
        · intro hr
          simp [hready] at hr
        · rintro ⟨hA, hO, hC⟩
          simp only [DNode.hasOutstandingDependency] at hA hC
          rcases hcond' with h1 | h1
          · rw [hA] at h1; cases h1
          · rw [hC] at h1; cases h1
      · intro hr
        simp [hready] at hr
  · simp only [if_neg hty]
    split
    next hcond =>
      simp only [Bool.or_eq_true, not_or, Bool.not_eq_true,
        DNode.hasOutstandingDependency] at hcond
      refine ⟨_, { deleted := false, ready := true, status := n.status, outstandingDependencies := eraseA n.outstandingDependencies s }, rfl, ?_, ?_, ?_⟩
      · simp [heapLookup, setNode, lookupA_updateA, hl]
      · constructor
        · intro _
          exact ⟨by simpa [DNode.hasOutstandingDependency] using hcond.1.1,
            by simpa [DNode.hasOutstandingDependency] using hcond.2,
            by simpa [DNode.hasOutstandingDependency] using hcond.1.2⟩
        · intro _; rfl
      · intro _
        simp [setNode, mem_setInsert]
    next hcond =>
      refine ⟨_, { deleted := false, ready := n.ready, status := n.status, outstandingDependencies := eraseA n.outstandingDependencies s }, rfl, ?_, ?_, ?_⟩
      · simp [heapLookup, setNode, lookupA_updateA, hl]
      · constructor
        · intro hr
          simp [hready] at hr
        · rintro ⟨hA, hO, hC⟩
          exfalso
          apply hcond
          simp only [Bool.or_eq_true, not_or, Bool.not_eq_true]
          exact ⟨⟨hA, hC⟩, hO⟩
      · intro hr
        simp [hready] at hr

theorem dependencyResolved_unresolvable_ready (g g' : DGraph) (d s : String) (n : DNode)
    (ty : DependencyType) (fuel : Nat)
    (hn : heapLookup g d = some n) (hdel : n.deleted = false)
    (hs : lookupA n.outstandingDependencies s = some ty)
    (hprop : ty = .AndDependency ∨ (ty = .OrDependency ∧
      ({ n with outstandingDependencies := eraseA n.outstandingDependencies s } : DNode).hasOutstandingDependency .OrDependency = false))
    (h : dependencyResolvedF fuel g d s .Unresolvable = .ok g') :
    ∃ n', heapLookup g' d = some n' ∧ n'.ready = true ∧
      d ∈ g'.readyForProcessing := by
  have hl : lookupA g.nodes d = some n := hn
  rcases hprop with hty | ⟨hty, hor⟩ <;> subst hty
  · simp only [dependencyResolvedF, dependencyResolvedCore, hn, hdel, hs,
      reduceCtorEq, reduceIte, if_false, ne_eq, not_false_eq_true, and_true,
      true_or, if_true] at h
    have hpres := resolveNodeF_presMono fuel _ d .Unresolvable g' h
    have hlook3 : heapLookup (setNode (setNode g d { deleted := false, ready := n.ready, status := n.status, outstandingDependencies := eraseA n.outstandingDependencies s }) d { deleted := false, ready := true, status := n.status, outstandingDependencies := eraseA n.outstandingDependencies s }) d = some { deleted := false, ready := true, status := n.status, outstandingDependencies := eraseA n.outstandingDependencies s } := by
      simp [heapLookup, setNode, lookupA_updateA, hl]
    obtain ⟨n', hn', _, _, hr'⟩ := hpres.1 d _ hlook3
    refine ⟨n', hn', hr' rfl, hpres.2 d ?_⟩
    simp [setNode, mem_setInsert]
  · have hor' : ({ deleted := false, ready := n.ready, status := n.status, outstandingDependencies := eraseA n.outstandingDependencies s } : DNode).hasOutstandingDependency .OrDependency = false := hor
    simp only [dependencyResolvedF, dependencyResolvedCore, hn, hdel, hs,
      reduceCtorEq, reduceIte, if_false, ne_eq, not_false_eq_true, and_true,
      hor', Bool.false_eq_true, or_true, if_true, false_or,
      not_false_eq_true] at h
    have hpres := resolveNodeF_presMono fuel _ d .Unresolvable g' h
    have hlook3 : heapLookup (setNode (setNode g d { deleted := false, ready := n.ready, status := n.status, outstandingDependencies := eraseA n.outstandingDependencies s }) d { deleted := false, ready := true, status := n.status, outstandingDependencies := eraseA n.outstandingDependencies s }) d = some { deleted := false, ready := true, status := n.status, outstandingDependencies := eraseA n.outstandingDependencies s } := by
      simp [heapLookup, setNode, lookupA_updateA, hl]
    obtain ⟨n', hn', _, _, hr'⟩ := hpres.1 d _ hlook3
    refine ⟨n', hn', hr' rfl, hpres.2 d ?_⟩
    simp [setNode, mem_setInsert]

/-- Claim C4 counterexample: the ready flag is not equivalent to the
absence of And, Or, and CompletionAnd outstanding entries, and
PushStartingNodes does not set the flag.  A freshly added node with no
dependencies is enqueued by PushStartingNodes with ready still false,
and Unresolvable propagation sets ready on a node that still has an And
entry outstanding. -/
theorem c4_ready_iff_counterexample :
    addNode newGraph "a" =
      .ok ⟨[("a", ⟨false, false, .Waiting, []⟩)], [], [("a", [])], [("a", [])]⟩ ∧
    heapLookup (pushStartingNodes
        ⟨[("a", ⟨false, false, .Waiting, []⟩)], [], [("a", [])], [("a", [])]⟩)
      "a" = some ⟨false, false, .Waiting, []⟩ ∧
    "a" ∈ (pushStartingNodes
        ⟨[("a", ⟨false, false, .Waiting, []⟩)], [], [("a", [])], [("a", [])]⟩).readyForProcessing ∧
    (∃ g2, resolveNodeF 2
        ⟨[("a", ⟨false, false, .Waiting, []⟩), ("b", ⟨false, false, .Waiting, []⟩),
          ("d", ⟨false, false, .Waiting, [("a", .AndDependency), ("b", .AndDependency)]⟩)],
         [], [("a", ["d"]), ("b", ["d"]), ("d", [])],
         [("a", []), ("b", []), ("d", ["a", "b"])]⟩ "a" .Unresolvable = .ok g2 ∧
      heapLookup g2 "d" =
        some ⟨false, true, .Unresolvable, [("b", .AndDependency)]⟩) :=
  ⟨rfl, by decide, by decide, ⟨_, rfl, by decide⟩⟩

/-- Claim C4 as amended: PushStartingNodes enqueues exactly the live
nodes whose outstanding map is empty at call time and does not modify
any node record (so it never sets the ready flag); the ready flag is set
by dependencyResolved: in its crediting branch (outcome Resolved, or
Unresolvable over a CompletionAnd edge, on a dependency that is not
Obviated) a not-yet-ready node becomes ready exactly when the updated
outstanding map has no And, Or, or CompletionAnd entry, while the
Unresolvable-propagation branch (And edge, or the last outstanding Or
edge) sets ready and enqueues unconditionally. -/
theorem c4_ready_flag_semantics :
    (∀ g : DGraph, (pushStartingNodes g).nodes = g.nodes ∧
      (∀ id n, heapLookup g id = some n → n.deleted = false →
        n.outstandingDependencies = [] →
        id ∈ (pushStartingNodes g).readyForProcessing) ∧
      (∀ id, id ∈ (pushStartingNodes g).readyForProcessing →
        id ∈ g.readyForProcessing ∨ ∃ p ∈ g.nodes, p.1 = id ∧
          p.2.deleted = false ∧ p.2.outstandingDependencies = [])) ∧
    (∀ (g : DGraph) (d s : String) (n : DNode) (ty : DependencyType)
        (res : ResolutionStatus) (fuel : Nat),
      heapLookup g d = some n → n.deleted = false → n.ready = false →
      lookupA n.outstandingDependencies s = some ty →
      ty ≠ .ObviatedDependency →
      (res = .Resolved ∨ (res = .Unresolvable ∧ ty = .CompletionAndDependency)) →
      ∃ g' n', dependencyResolvedF fuel g d s res = .ok g' ∧
        heapLookup g' d = some n' ∧
        (n'.ready = true ↔
          (n'.hasOutstandingDependency .AndDependency = false ∧
           n'.hasOutstandingDependency .OrDependency = false ∧
           n'.hasOutstandingDependency .CompletionAndDependency = false)) ∧
        (n'.ready = true → d ∈ g'.readyForProcessing)) ∧
    (∀ (g g' : DGraph) (d s : String) (n : DNode) (ty : DependencyType)
        (fuel : Nat),
      heapLookup g d = some n → n.deleted = false →
      lookupA n.outstandingDependencies s = some ty →
      (ty = .AndDependency ∨ (ty = .OrDependency ∧
        ({ n with outstandingDependencies := eraseA n.outstandingDependencies s } : DNode).hasOutstandingDependency .OrDependency = false)) →
      dependencyResolvedF fuel g d s .Unresolvable = .ok g' →
      ∃ n', heapLookup g' d = some n' ∧ n'.ready = true ∧
        d ∈ g'.readyForProcessing) :=
  ⟨fun g => ⟨rfl,
    fun id n hn hdel hout =>
      pushStep_complete g.nodes g.readyForProcessing id n (lookupA_mem hn)
        hdel hout,
    fun id hx => pushStep_sound g.nodes g.readyForProcessing id hx⟩,
   fun g d s n ty res fuel hn hdel hready hs hobv hcase =>
    dependencyResolved_credit_ready g d s n ty res fuel hn hdel hready hs
      hobv hcase,
   fun g g' d s n ty fuel hn hdel hs hprop h =>
    dependencyResolved_unresolvable_ready g g' d s n ty fuel hn hdel hs
      hprop h⟩

/-- Witness for the amended claim C4 at concrete inputs: a one-node
graph for the seeding part, a single And dependency resolving for the
crediting part, and a single And dependency failing for the propagation
part. -/
theorem c4_ready_flag_semantics_witness :
    "a" ∈ (pushStartingNodes
      ⟨[("a", ⟨false, false, .Waiting, []⟩)], [], [("a", [])], [("a", [])]⟩).readyForProcessing ∧
    (∃ g' n', dependencyResolvedF 1
        ⟨[("d", ⟨false, false, .Waiting, [("x", .AndDependency)]⟩)], [], [("d", [])], [("d", ["x"])]⟩
        "d" "x" .Resolved = .ok g' ∧
      heapLookup g' "d" = some n' ∧
      (n'.ready = true ↔
        (n'.hasOutstandingDependency .AndDependency = false ∧
         n'.hasOutstandingDependency .OrDependency = false ∧
         n'.hasOutstandingDependency .CompletionAndDependency = false)) ∧
      (n'.ready = true → "d" ∈ g'.readyForProcessing)) ∧
    (∃ n', heapLookup
        ⟨[("d", ⟨false, true, .Unresolvable, []⟩)], ["d"], [("d", [])], [("d", ["x"])]⟩
        "d" = some n' ∧ n'.ready = true ∧
      "d" ∈ (⟨[("d", ⟨false, true, .Unresolvable, []⟩)], ["d"], [("d", [])], [("d", ["x"])]⟩ : DGraph).readyForProcessing) :=
  ⟨(c4_ready_flag_semantics.1
      ⟨[("a", ⟨false, false, .Waiting, []⟩)], [], [("a", [])], [("a", [])]⟩).2.1
      "a" ⟨false, false, .Waiting, []⟩ rfl rfl rfl,
   c4_ready_flag_semantics.2.1
      ⟨[("d", ⟨false, false, .Waiting, [("x", .AndDependency)]⟩)], [], [("d", [])], [("d", ["x"])]⟩
      "d" "x" ⟨false, false, .Waiting, [("x", .AndDependency)]⟩
      .AndDependency .Resolved 1 rfl rfl rfl (by decide) (by decide)
      (Or.inl rfl),
   c4_ready_flag_semantics.2.2
      ⟨[("d", ⟨false, false, .Waiting, [("x", .AndDependency)]⟩)], [], [("d", [])], [("d", ["x"])]⟩
      ⟨[("d", ⟨false, true, .Unresolvable, []⟩)], ["d"], [("d", [])], [("d", ["x"])]⟩
      "d" "x" ⟨false, false, .Waiting, [("x", .AndDependency)]⟩
      .AndDependency 1 rfl rfl (by decide) (Or.inl rfl) rfl⟩

/-- Scenario graph of claim C5: a diamond S to M1 and M2, both feeding T,
all And edges, seeded, then S resolved as Unresolvable, so that two
propagation paths converge on T. -/
def buildDiamondUnresolvable (s m1 m2 t : String) : Except DGError DGraph := do
  let g0 ← addNode newGraph s
  let g1 ← addNode g0 m1
  let g2 ← addNode g1 m2
  let g3 ← addNode g2 t
  let g4 ← connectNodes g3 s m1 .AndDependency
  let g5 ← connectNodes g4 s m2 .AndDependency
  let g6 ← connectNodes g5 m1 t .AndDependency
  let g7 ← connectNodes g6 m2 t .AndDependency
  resolveNodeF 6 (pushStartingNodes g7) s .Unresolvable

/-- Claim C5 counterexample: on the diamond of And edges the recursive
Unresolvable propagation reaches T twice; the second visit hits the
status guard of resolveNode, and the resulting NodeResolutionAlreadySet
error surfaces to the outer ResolveNode caller instead of being skipped
silently, so ResolveNode does not return no error on this acyclic
graph. -/
theorem c5_diamond_counterexample :
    buildDiamondUnresolvable "s" "m1" "m2" "t" =
      .error (.ErrNodeResolutionAlreadySet "t" .Unresolvable .Unresolvable) :=
  rfl

set_option maxHeartbeats 2000000 in
/-- Claim C5 as amended: for every diamond of And edges the depth-first
recursive propagation terminates, but the second propagation path to
reach the converged node finds it already terminal and the status guard
of resolveNode returns NodeResolutionAlreadySet, which surfaces to the
outer ResolveNode caller (the first path has already marked the node
Unresolvable). -/
theorem c5_diamond_unresolvable_error (s m1 m2 t : String)
    (h1 : s ≠ m1) (h2 : s ≠ m2) (h3 : s ≠ t) (h4 : m1 ≠ m2) (h5 : m1 ≠ t)
    (h6 : m2 ≠ t) :
    buildDiamondUnresolvable s m1 m2 t =
      .error (.ErrNodeResolutionAlreadySet t .Unresolvable .Unresolvable) := by
  have h1' : m1 ≠ s := h1.symm
  have h2' : m2 ≠ s := h2.symm
  have h3' : t ≠ s := h3.symm
  have h4' : m2 ≠ m1 := h4.symm
  have h5' : t ≠ m1 := h5.symm
  have h6' : t ≠ m2 := h6.symm
  simp [buildDiamondUnresolvable, newGraph, addNode, connectNodes,
    resolveNodeF, dependencyResolvedCore, pushStartingNodes, heapLookup,
    mapLookup, setNode, lookupA, insertA, updateA, eraseA, setInsert,
    setErase, markOrsObviated, DNode.hasOutstandingDependency,
    notifyOutbound, List.foldl, bind, Except.bind, pure, Except.pure,
    h1, h2, h3, h4, h5, h6, h1', h2', h3', h4', h5', h6']

/-- Witness for the amended claim C5 at concrete node ids. -/
theorem c5_diamond_unresolvable_error_witness :
    buildDiamondUnresolvable "dep" "x1" "x2" "top" =
      .error (.ErrNodeResolutionAlreadySet "top" .Unresolvable .Unresolvable) :=
  c5_diamond_unresolvable_error "dep" "x1" "x2" "top" (by decide) (by decide)
    (by decide) (by decide) (by decide) (by decide)

/-- Claim C7 counterexample: Connect then the matching DisconnectInbound
restores both adjacency mappings but leaves the edge's entry in the
destination's outstanding map, so the destination's state is not
restored exactly: after the round trip node b still carries the And
entry for a that was absent before the Connect. -/
theorem c7_disconnect_counterexample :
    ∃ g1 g2,
      connectNodes ⟨[("a", ⟨false, false, .Waiting, []⟩), ("b", ⟨false, false, .Waiting, []⟩)], [], [("a", []), ("b", [])], [("a", []), ("b", [])]⟩
        "a" "b" .AndDependency = .ok g1 ∧
      disconnectInbound g1 "b" "a" = .ok g2 ∧
      g2.connectionsFromNode = [("a", []), ("b", [])] ∧
      g2.connectionsToNode = [("a", []), ("b", [])] ∧
      heapLookup g2 "b" =
        some ⟨false, false, .Waiting, [("a", .AndDependency)]⟩ :=
  ⟨_, _, rfl, rfl, by decide, by decide, by decide⟩

/-- Claim C7 as amended: for every pair of existing, non-deleted nodes
with no prior edge between them, Connect or ConnectDependency followed
by the matching DisconnectInbound or DisconnectOutbound restores both
adjacency mappings and the ready queue exactly, but the destination's
outstanding map keeps the entry recorded by the Connect: the disconnect
does not remove it. -/
theorem c7_connect_disconnect_restores_adjacency (g : DGraph) (fromID toID : String) (ty : DependencyType)
    (nf nt : DNode) (fl tl : List String)
    (hnf : heapLookup g fromID = some nf) (hnfdel : nf.deleted = false)
    (hnt : heapLookup g toID = some nt) (hntdel : nt.deleted = false)
    (hne : fromID ≠ toID)
    (hfl : lookupA g.connectionsFromNode fromID = some fl) (hflm : toID ∉ fl)
    (htl : lookupA g.connectionsToNode toID = some tl) (htlm : fromID ∉ tl) :
    ∃ g1 g2, connectNodes g fromID toID ty = .ok g1 ∧
      disconnectInbound g1 toID fromID = .ok g2 ∧
      disconnectOutbound g1 fromID toID = .ok g2 ∧
      g2.connectionsFromNode = g.connectionsFromNode ∧
      g2.connectionsToNode = g.connectionsToNode ∧
      g2.readyForProcessing = g.readyForProcessing ∧
      g2.nodes = updateA g.nodes toID (fun nn =>
        { nn with outstandingDependencies :=
            insertA nn.outstandingDependencies fromID ty }) ∧
      ∃ n2, heapLookup g2 toID = some n2 ∧
        lookupA n2.outstandingDependencies fromID = some ty := by
  have hlf : lookupA g.nodes fromID = some nf := hnf
  have hlt : lookupA g.nodes toID = some nt := hnt
  have hmapf : mapLookup g fromID = some nf := by
    simp [mapLookup, hlf, hnfdel]
  have hmapt : mapLookup g toID = some nt := by
    simp [mapLookup, hlt, hntdel]
  have hconn : connectNodes g fromID toID ty = .ok
      { g with
        connectionsFromNode :=
          updateA g.connectionsFromNode fromID (fun s => setInsert s toID),
        connectionsToNode :=
          updateA g.connectionsToNode toID (fun s => setInsert s fromID),
        nodes := updateA g.nodes toID (fun n =>
          { n with outstandingDependencies :=
              insertA n.outstandingDependencies fromID ty }) } := by
    simp [connectNodes, hmapf, hmapt, hnfdel, hntdel, hne, hfl, hflm]
  have hto : updateA (updateA g.connectionsToNode toID
        (fun s => setInsert s fromID)) toID (fun s => setErase s fromID) =
      g.connectionsToNode := by
    rw [updateA_updateA]
    apply updateA_self
    intro v hv
    rw [htl] at hv
    cases hv
    exact setErase_setInsert tl fromID htlm
  have hfrom : updateA (updateA g.connectionsFromNode fromID
        (fun s => setInsert s toID)) fromID (fun s => setErase s toID) =
      g.connectionsFromNode := by
    rw [updateA_updateA]
    apply updateA_self
    intro v hv
    rw [hfl] at hv
    cases hv
    exact setErase_setInsert fl toID hflm
  have hlt1 : lookupA (updateA g.nodes toID (fun n => { n with outstandingDependencies := insertA n.outstandingDependencies fromID ty })) toID = some { nt with outstandingDependencies := insertA nt.outstandingDependencies fromID ty } := by
    rw [lookupA_updateA, if_pos rfl, hlt]; rfl
  have hlf1 : lookupA (updateA g.nodes toID (fun n => { n with outstandingDependencies := insertA n.outstandingDependencies fromID ty })) fromID = some nf := by
    rw [lookupA_updateA, if_neg hne]; exact hlf
  have hto1 : lookupA (updateA g.connectionsToNode toID
      (fun s => setInsert s fromID)) toID = some (setInsert tl fromID) := by
    rw [lookupA_updateA, if_pos rfl, htl]; rfl
  have hfl1 : lookupA (updateA g.connectionsFromNode fromID
      (fun s => setInsert s toID)) fromID = some (setInsert fl toID) := by
    rw [lookupA_updateA, if_pos rfl, hfl]; rfl
  refine ⟨_, { g with nodes := updateA g.nodes toID (fun nn => { nn with outstandingDependencies := insertA nn.outstandingDependencies fromID ty }) }, hconn, ?_, ?_, rfl, rfl, rfl, rfl, ?_⟩
  · simp [disconnectInbound, heapLookup, mapLookup, hlt1, hlf1, hto1,
      hntdel, hnfdel, hto, hfrom, mem_setInsert]
  · simp [disconnectOutbound, heapLookup, mapLookup, hlt1, hlf1, hfl1,
      hntdel, hnfdel, hto, hfrom, mem_setInsert]
  · refine ⟨{ nt with outstandingDependencies := insertA nt.outstandingDependencies fromID ty }, hlt1, ?_⟩
    simp [lookupA_insertA]

/-- Witness for the amended claim C7 on a concrete two-node graph. -/
theorem c7_connect_disconnect_restores_adjacency_witness :
    ∃ g1 g2, connectNodes
        ⟨[("a", ⟨false, false, .Waiting, []⟩), ("b", ⟨false, false, .Waiting, []⟩)], [], [("a", []), ("b", [])], [("a", []), ("b", [])]⟩
        "a" "b" .AndDependency = .ok g1 ∧
      disconnectInbound g1 "b" "a" = .ok g2 ∧
      disconnectOutbound g1 "a" "b" = .ok g2 ∧
      g2.connectionsFromNode = [("a", []), ("b", [])] ∧
      g2.connectionsToNode = [("a", []), ("b", [])] ∧
      g2.readyForProcessing = [] ∧
      g2.nodes = updateA [("a", (⟨false, false, .Waiting, []⟩ : DNode)), ("b", ⟨false, false, .Waiting, []⟩)] "b" (fun nn => { nn with outstandingDependencies := insertA nn.outstandingDependencies "a" .AndDependency }) ∧
      ∃ n2, heapLookup g2 "b" = some n2 ∧
        lookupA n2.outstandingDependencies "a" = some .AndDependency :=
  c7_connect_disconnect_restores_adjacency
    ⟨[("a", ⟨false, false, .Waiting, []⟩), ("b", ⟨false, false, .Waiting, []⟩)], [], [("a", []), ("b", [])], [("a", []), ("b", [])]⟩
    "a" "b" .AndDependency ⟨false, false, .Waiting, []⟩
    ⟨false, false, .Waiting, []⟩ [] []
    rfl rfl (by decide) rfl (by decide) rfl (by decide) (by decide) (by decide)


theorem keys_updateA {α : Type} (m : AssocMap α) (k : String) (f : α → α) :
    (updateA m k f).map Prod.fst = m.map Prod.fst := by
  induction m with
  | nil => simp [updateA]
  | cons p rest ih =>
      obtain ⟨a, b⟩ := p
      by_cases hk : k = a
      · subst hk; simp [updateA]
      · simp [updateA, hk, ih]

theorem keys_foldl_updateA {α : Type} (outs : List String) (f : α → α) :
    ∀ m : AssocMap α,
      ((outs.foldl (fun m t => updateA m t f) m)).map Prod.fst =
        m.map Prod.fst := by
  induction outs with
  | nil => intro m; simp
  | cons t rest ih =>
      intro m
      simp only [List.foldl_cons]
      rw [ih, keys_updateA]

theorem mem_eraseA_sub {α : Type} {m : AssocMap α} {k : String}
    {p : String × α} (h : p ∈ eraseA m k) : p ∈ m := by
  induction m with
  | nil => simpa [eraseA] using h
  | cons q rest ih =>
      obtain ⟨a, b⟩ := q
      by_cases hk : k = a
      · subst hk
        simp only [eraseA, if_pos rfl] at h
        exact List.mem_cons_of_mem _ h
      · simp only [eraseA, if_neg hk] at h
        rcases List.mem_cons.mp h with h1 | h1
        · exact h1 ▸ List.mem_cons_self _ _
        · exact List.mem_cons_of_mem _ (ih h1)

theorem keys_eraseA_sublist {α : Type} (m : AssocMap α) (k : String) :
    ((eraseA m k).map Prod.fst).Sublist (m.map Prod.fst) := by
  induction m with
  | nil => simp [eraseA]
  | cons q rest ih =>
      obtain ⟨a, b⟩ := q
      by_cases hk : k = a
      · subst hk
        simp only [eraseA, if_pos rfl, List.map_cons]
        exact (List.sublist_cons_self _ _)
      · simp only [eraseA, if_neg hk, List.map_cons]
        exact ih.cons₂ _

theorem setErase_not_mem_self (l : List String) (x : String) (hn : l.Nodup) :
    x ∉ setErase l x := by
  induction l with
  | nil => simp [setErase]
  | cons y rest ih =>
      simp only [List.nodup_cons] at hn
      by_cases hx : x = y
      · subst hx
        simpa [setErase] using hn.1
      · simp only [setErase, if_neg hx, List.mem_cons]
        push_neg
        exact ⟨hx, ih hn.2⟩

theorem lookupA_foldl_setErase (outs : List String) (x : String)
    (hn : outs.Nodup) :
    ∀ (m : AssocMap (List String)) (k : String),
      lookupA (outs.foldl (fun m t => updateA m t
        (fun s => setErase s x)) m) k =
      if k ∈ outs then (lookupA m k).map (fun s => setErase s x)
      else lookupA m k := by
  induction outs with
  | nil => intro m k; simp
  | cons t rest ih =>
      intro m k
      simp only [List.nodup_cons] at hn
      simp only [List.foldl_cons]
      rw [ih hn.2]
      by_cases hk : k = t
      · subst hk
        rw [if_neg hn.1, if_pos (List.mem_cons_self _ _)]
        rw [lookupA_updateA, if_pos rfl]
      · by_cases hkr : k ∈ rest
        · rw [if_pos hkr, if_pos (List.mem_cons_of_mem _ hkr)]
          rw [lookupA_updateA, if_neg hk]
        · rw [if_neg hkr, if_neg (by simp [hk, hkr])]
          rw [lookupA_updateA, if_neg hk]

/-- Claim C8 (amended): after a successful Remove of nid, the node's heap
record carries deleted = true, nid's own entries are gone from both
adjacency mappings and nid is absent from every remaining adjacency list
(all incident edges deleted); the handle-based mutators DisconnectInbound,
DisconnectOutbound, Remove and ResolveNode on nid then return NodeDeleted,
but Connect and ConnectDependency through the handle return NodeNotFound,
because connectNodes re-reads both endpoints from the Go map, which no
longer contains the removed node.  The adjacency hypotheses say the maps
are well-formed: distinct keys, duplicate-free edge lists, the two
mappings mirror each other, and nid has no self edge. -/
theorem c8_remove_then_mutate (g : DGraph) (nid : String) (n : DNode)
    (hn : heapLookup g nid = some n)
    (hdel : n.deleted = false)
    (hkf : (g.connectionsFromNode.map Prod.fst).Nodup)
    (hkt : (g.connectionsToNode.map Prod.fst).Nodup)
    (hif : ∀ p ∈ g.connectionsFromNode, p.2.Nodup)
    (hit : ∀ p ∈ g.connectionsToNode, p.2.Nodup)
    (hsymF : ∀ p ∈ g.connectionsFromNode, ∀ v ∈ p.2,
      p.1 ∈ (lookupA g.connectionsToNode v).getD [])
    (hsymT : ∀ p ∈ g.connectionsToNode, ∀ u ∈ p.2,
      p.1 ∈ (lookupA g.connectionsFromNode u).getD [])
    (hselfF : nid ∉ (lookupA g.connectionsFromNode nid).getD [])
    (hselfT : nid ∉ (lookupA g.connectionsToNode nid).getD []) :
    ∃ g', removeNode g nid = .ok g' ∧
      heapLookup g' nid = some { n with deleted := true } ∧
      lookupA g'.connectionsFromNode nid = none ∧
      lookupA g'.connectionsToNode nid = none ∧
      (∀ k l, lookupA g'.connectionsFromNode k = some l → nid ∉ l) ∧
      (∀ k l, lookupA g'.connectionsToNode k = some l → nid ∉ l) ∧
      (∀ x ty, connectNodes g' nid x ty = .error (.ErrNodeNotFound nid)) ∧
      (∀ x, disconnectInbound g' nid x = .error (.ErrNodeDeleted nid)) ∧
      (∀ x, disconnectOutbound g' nid x = .error (.ErrNodeDeleted nid)) ∧
      removeNode g' nid = .error (.ErrNodeDeleted nid) ∧
      (∀ fuel st, resolveNodeF (fuel + 1) g' nid st =
        .error (.ErrNodeDeleted nid)) := by
  have hn' : lookupA g.nodes nid = some n := hn
  set outs := (lookupA g.connectionsFromNode nid).getD [] with houts
  set to1 := outs.foldl (fun m t => updateA m t (fun s => setErase s nid))
    g.connectionsToNode with hto1def
  set from2 := eraseA g.connectionsFromNode nid with hfrom2def
  set ins := (lookupA to1 nid).getD [] with hinsdef
  set from3 := ins.foldl (fun m t => updateA m t (fun s => setErase s nid))
    from2 with hfrom3def
  set to4 := eraseA to1 nid with hto4def
  set nodes5 := updateA g.nodes nid (fun m => { m with deleted := true })
    with hnodes5def
  have houts_nodup : outs.Nodup := by
    rw [houts]
    cases hl : lookupA g.connectionsFromNode nid with
    | none => simp
    | some l => simpa using hif _ (lookupA_mem hl)
  have hto1nid : lookupA to1 nid = lookupA g.connectionsToNode nid := by
    rw [hto1def, lookupA_foldl_setErase _ _ houts_nodup, if_neg hselfF]
  have hins_eq : ins = (lookupA g.connectionsToNode nid).getD [] := by
    rw [hinsdef, hto1nid]
  have hins_nodup : ins.Nodup := by
    rw [hins_eq]
    cases hl : lookupA g.connectionsToNode nid with
    | none => simp
    | some l => simpa using hit _ (lookupA_mem hl)
  have hnid_ins : nid ∉ ins := hins_eq ▸ hselfT
  have hkt1 : (to1.map Prod.fst).Nodup := by
    rw [hto1def, keys_foldl_updateA]; exact hkt
  have hlook5 : lookupA nodes5 nid = some { n with deleted := true } := by
    rw [hnodes5def, lookupA_updateA, if_pos rfl, hn']; rfl
  have hrem : removeNode g nid = .ok
      { nodes := nodes5, readyForProcessing := g.readyForProcessing,
        connectionsFromNode := from3, connectionsToNode := to4 } := by
    rw [hnodes5def, hto4def, hfrom3def, hinsdef, hfrom2def, hto1def, houts]
    simp [removeNode, hn, hdel]
  refine ⟨_, hrem, ?_, ?_, ?_, ?_, ?_, ?_, ?_, ?_, ?_, ?_⟩
  · exact hlook5
  · show lookupA from3 nid = none
    rw [hfrom3def, lookupA_foldl_setErase _ _ hins_nodup, if_neg hnid_ins,
      hfrom2def, lookupA_eraseA_self_of_nodup hkf]
  · show lookupA to4 nid = none
    rw [hto4def, lookupA_eraseA_self_of_nodup hkt1]
  · show ∀ k l, lookupA from3 k = some l → nid ∉ l
    intro k l hl hmem
    rw [hfrom3def, lookupA_foldl_setErase _ _ hins_nodup] at hl
    by_cases hk : k ∈ ins
    · rw [if_pos hk] at hl
      cases hl2 : lookupA from2 k with
      | none => rw [hl2] at hl; simp at hl
      | some l0 =>
          rw [hl2] at hl
          simp only [Option.map_some', Option.some.injEq] at hl
          have hmem2 : (k, l0) ∈ g.connectionsFromNode := by
            have := lookupA_mem hl2
            rw [hfrom2def] at this
            exact mem_eraseA_sub this
          have hnot : nid ∉ setErase l0 nid :=
            setErase_not_mem_self _ _ (by simpa using hif _ hmem2)
          rw [← hl] at hmem
          exact hnot hmem
    · rw [if_neg hk] at hl
      by_cases hknid : k = nid
      · subst hknid
        rw [hfrom2def, lookupA_eraseA_self_of_nodup hkf] at hl
        exact Option.noConfusion hl
      · rw [hfrom2def, lookupA_eraseA_ne _ _ _ hknid] at hl
        have hmem2 : (k, l) ∈ g.connectionsFromNode := lookupA_mem hl
        have hx := hsymF _ hmem2 nid hmem
        rw [← hins_eq] at hx
        exact hk hx
  · show ∀ k l, lookupA to4 k = some l → nid ∉ l
    intro k l hl hmem
    rw [hto4def] at hl
    by_cases hknid : k = nid
    · subst hknid
      rw [lookupA_eraseA_self_of_nodup hkt1] at hl
      exact Option.noConfusion hl
    · rw [lookupA_eraseA_ne _ _ _ hknid] at hl
      rw [hto1def, lookupA_foldl_setErase _ _ houts_nodup] at hl
      by_cases hk : k ∈ outs
      · rw [if_pos hk] at hl
        cases hl2 : lookupA g.connectionsToNode k with
        | none => rw [hl2] at hl; simp at hl
        | some l0 =>
            rw [hl2] at hl
            simp only [Option.map_some', Option.some.injEq] at hl
            have hmem2 : (k, l0) ∈ g.connectionsToNode := lookupA_mem hl2
            have hnot : nid ∉ setErase l0 nid :=
              setErase_not_mem_self _ _ (by simpa using hit _ hmem2)
            rw [← hl] at hmem
            exact hnot hmem
      · rw [if_neg hk] at hl
        have hmem2 : (k, l) ∈ g.connectionsToNode := lookupA_mem hl
        have hx := hsymT _ hmem2 nid hmem
        rw [← houts] at hx
        exact hk hx
  · intro x ty
    simp [connectNodes, mapLookup, hlook5]
  · intro x
    simp [disconnectInbound, heapLookup, hlook5]
  · intro x
    simp [disconnectOutbound, heapLookup, hlook5]
  · simp [removeNode, heapLookup, hlook5]
  · intro fuel st
    simp [resolveNodeF, heapLookup, hlook5]

/-- Counterexample to claim C8 as stated: after Remove succeeds on node a,
Connect and ConnectDependency through a's handle return NodeNotFound, not
the NodeDeleted error the claim demands for every mutating call. -/
theorem c8_remove_counterexample : ∃ gR,
    removeNode
      ⟨[("a", ⟨false, false, .Waiting, []⟩),
        ("b", ⟨false, false, .Waiting, []⟩)], [],
        [("a", []), ("b", [])], [("a", []), ("b", [])]⟩ "a" = .ok gR ∧
    connectNodes gR "a" "b" .AndDependency =
      .error (.ErrNodeNotFound "a") ∧
    connectNodes gR "b" "a" .AndDependency =
      .error (.ErrNodeNotFound "a") ∧
    (DGError.ErrNodeNotFound "a") ≠ (DGError.ErrNodeDeleted "a") :=
  ⟨_, rfl, rfl, rfl, by decide⟩

/-- Witness for the amended claim C8 on a concrete graph with one edge. -/
theorem c8_remove_then_mutate_witness :
    ∃ g', removeNode
        ⟨[("a", ⟨false, false, .Waiting, []⟩),
          ("b", ⟨false, false, .Waiting, [("a", .AndDependency)]⟩)], [],
          [("a", ["b"]), ("b", [])], [("a", []), ("b", ["a"])]⟩ "a" =
        .ok g' ∧
      heapLookup g' "a" = some ⟨true, false, .Waiting, []⟩ ∧
      lookupA g'.connectionsFromNode "a" = none ∧
      lookupA g'.connectionsToNode "a" = none ∧
      (∀ k l, lookupA g'.connectionsFromNode k = some l → "a" ∉ l) ∧
      (∀ k l, lookupA g'.connectionsToNode k = some l → "a" ∉ l) ∧
      (∀ x ty, connectNodes g' "a" x ty = .error (.ErrNodeNotFound "a")) ∧
      (∀ x, disconnectInbound g' "a" x = .error (.ErrNodeDeleted "a")) ∧
      (∀ x, disconnectOutbound g' "a" x = .error (.ErrNodeDeleted "a")) ∧
      removeNode g' "a" = .error (.ErrNodeDeleted "a") ∧
      (∀ fuel st, resolveNodeF (fuel + 1) g' "a" st =
        .error (.ErrNodeDeleted "a")) :=
  c8_remove_then_mutate _ "a" ⟨false, false, .Waiting, []⟩ rfl rfl
    (by decide) (by decide) (by decide) (by decide) (by decide) (by decide)
    (by decide) (by decide)


/-- Spec-side edge relation read off the reverse adjacency: s → t is an
edge when s is listed among t's inbound connections. -/
def EdgeRev (rev : AssocMap (List String)) (s t : String) : Prop :=
  ∃ l, lookupA rev t = some l ∧ s ∈ l

/-- Spec-side cycle: a nonempty chain of edges from some x back to x. -/
def HasCycleSpec (rev : AssocMap (List String)) : Prop :=
  ∃ x l, List.Chain (EdgeRev rev) x (l ++ [x])

theorem lookupA_stripNodes (rev : AssocMap (List String)) (zs : List String)
    (t : String) :
    lookupA (stripNodes rev zs) t =
      if t ∈ zs then none
      else (lookupA rev t).map (fun l => l.filter (fun s => s ∉ zs)) := by
  induction rev with
  | nil =>
      simp only [stripNodes, List.filter_nil, List.map_nil, lookupA]
      split <;> rfl
  | cons p rest ih =>
      obtain ⟨a, b⟩ := p
      by_cases ha : a ∈ zs
      · have h1 : stripNodes ((a, b) :: rest) zs = stripNodes rest zs := by
          simp [stripNodes, ha]
        rw [h1, ih]
        by_cases ht : t ∈ zs
        · simp [ht]
        · have hta : ¬ t = a := fun h => ht (h ▸ ha)
          simp [ht, lookupA, hta]
      · have h1 : stripNodes ((a, b) :: rest) zs =
            (a, b.filter (fun s => s ∉ zs)) :: stripNodes rest zs := by
          simp [stripNodes, ha]
        rw [h1]
        by_cases hta : t = a
        · subst hta
          simp [lookupA, ha]
        · simp only [lookupA, if_neg hta, ih]

theorem keys_stripNodes_sublist (rev : AssocMap (List String))
    (zs : List String) :
    ((stripNodes rev zs).map Prod.fst).Sublist (rev.map Prod.fst) := by
  have h1 : (stripNodes rev zs).map Prod.fst =
      (rev.filter (fun p => p.1 ∉ zs)).map Prod.fst := by
    simp [stripNodes]
  rw [h1]
  exact (List.filter_sublist _).map _

theorem nodup_keys_stripNodes {rev : AssocMap (List String)}
    {zs : List String} (hnd : (rev.map Prod.fst).Nodup) :
    ((stripNodes rev zs).map Prod.fst).Nodup :=
  (keys_stripNodes_sublist rev zs).nodup hnd

theorem closure_stripNodes {rev : AssocMap (List String)} {zs : List String}
    (hcl : ∀ p ∈ rev, ∀ s ∈ p.2, (lookupA rev s).isSome) :
    ∀ p ∈ stripNodes rev zs, ∀ s ∈ p.2,
      (lookupA (stripNodes rev zs) s).isSome := by
  intro p hp s hs
  simp only [stripNodes, List.mem_map, List.mem_filter] at hp
  obtain ⟨q, ⟨hq, hqz⟩, hqp⟩ := hp
  rw [← hqp] at hs
  simp only [List.mem_filter, decide_not] at hs
  obtain ⟨hsq, hsz⟩ := hs
  have hsome := hcl q hq s hsq
  rw [lookupA_stripNodes]
  rw [if_neg (by simpa using hsz)]
  simpa using hsome

theorem not_mem_zeroInbound {rev : AssocMap (List String)}
    (hnd : (rev.map Prod.fst).Nodup) {y : String} {ly : List String}
    (hy : lookupA rev y = some ly) (hne : ly ≠ []) :
    y ∉ zeroInbound rev := by
  intro hmem
  simp only [zeroInbound, List.mem_map, List.mem_filter] at hmem
  obtain ⟨p, ⟨hp, hpe⟩, hpy⟩ := hmem
  have hpe' : p.2 = [] := by simpa using hpe
  have : lookupA rev p.1 = some p.2 := mem_lookupA_of_nodup hnd hp
  rw [hpy, hy] at this
  exact hne (by simpa [hpe'] using this.symm)

theorem zeroInbound_eq_nil_iff (rev : AssocMap (List String)) :
    zeroInbound rev = [] ↔ ∀ p ∈ rev, p.2 ≠ [] := by
  simp only [zeroInbound, List.map_eq_nil_iff, List.filter_eq_nil_iff]
  constructor
  · intro h p hp
    have := h p hp
    simpa using this
  · intro h p hp
    simpa using h p hp

theorem chain_targets {R : String → String → Prop} :
    ∀ (a : String) (m : List String), List.Chain R a m →
      ∀ v ∈ m, ∃ u, R u v := by
  intro a m
  induction m generalizing a with
  | nil => intro _ v hv; simp at hv
  | cons b m' ih =>
      intro hch v hv
      rcases hch with _ | ⟨hab, hch'⟩
      rcases List.mem_cons.mp hv with h | h
      · exact ⟨a, h ▸ hab⟩
      · exact ih b hch' v h

theorem chain_strip {rev : AssocMap (List String)} {zs : List String} :
    ∀ (a : String) (m : List String), a ∉ zs → (∀ v ∈ m, v ∉ zs) →
      List.Chain (EdgeRev rev) a m →
      List.Chain (EdgeRev (stripNodes rev zs)) a m := by
  intro a m
  induction m generalizing a with
  | nil => intro _ _ _; exact List.Chain.nil
  | cons b m' ih =>
      intro ha hm hch
      rcases hch with _ | ⟨hab, hch'⟩
      have hb : b ∉ zs := hm b (List.mem_cons_self _ _)
      refine List.Chain.cons ?_ (ih b hb (fun v hv => hm v (List.mem_cons_of_mem _ hv)) hch')
      obtain ⟨lb, hlb, halb⟩ := hab
      refine ⟨lb.filter (fun s => s ∉ zs), ?_, ?_⟩
      · rw [lookupA_stripNodes, if_neg hb, hlb]; rfl
      · simp only [List.mem_filter, decide_not]
        exact ⟨halb, by simpa using ha⟩

theorem chain_unstrip {rev : AssocMap (List String)} {zs : List String} :
    ∀ (a : String) (m : List String),
      List.Chain (EdgeRev (stripNodes rev zs)) a m →
      List.Chain (EdgeRev rev) a m := by
  intro a m hch
  refine List.Chain.imp ?_ hch
  intro s t hst
  obtain ⟨l', hl', hsl⟩ := hst
  rw [lookupA_stripNodes] at hl'
  by_cases ht : t ∈ zs
  · rw [if_pos ht] at hl'; exact absurd hl' (by simp)
  · rw [if_neg ht] at hl'
    cases hlt : lookupA rev t with
    | none => rw [hlt] at hl'; exact absurd hl' (by simp)
    | some l =>
        rw [hlt] at hl'
        simp only [Option.map_some', Option.some.injEq] at hl'
        rw [← hl'] at hsl
        exact ⟨l, hlt, (List.mem_filter.mp hsl).1⟩

theorem hasCycleSpec_ne_nil {rev : AssocMap (List String)}
    (h : HasCycleSpec rev) : rev ≠ [] := by
  obtain ⟨x, l, hch⟩ := h
  intro hrev
  subst hrev
  have hne : l ++ [x] ≠ [] := by simp
  obtain ⟨y, rest, hyr⟩ := List.exists_cons_of_ne_nil hne
  rw [hyr] at hch
  rcases hch with _ | ⟨hxy, _⟩
  obtain ⟨l', hl', _⟩ := hxy
  simp [lookupA] at hl'

theorem cycle_strip {rev : AssocMap (List String)}
    (hnd : (rev.map Prod.fst).Nodup) (h : HasCycleSpec rev) :
    HasCycleSpec (stripNodes rev (zeroInbound rev)) := by
  obtain ⟨x, l, hch⟩ := h
  have htargets : ∀ v ∈ l ++ [x], v ∉ zeroInbound rev := by
    intro v hv
    obtain ⟨u, hu⟩ := chain_targets x (l ++ [x]) hch v hv
    obtain ⟨lv, hlv, hulv⟩ := hu
    exact not_mem_zeroInbound hnd hlv (by rintro rfl; simp at hulv)
  have hx : x ∉ zeroInbound rev := htargets x (by simp)
  exact ⟨x, l, chain_strip x (l ++ [x]) hx htargets hch⟩

/-- One step backwards along an inbound edge: the first listed inbound
neighbour of t, or t itself when t has no nonempty entry. -/
def pickSource (rev : AssocMap (List String)) (t : String) : String :=
  match lookupA rev t with
  | some (s :: _) => s
  | _ => t

theorem lookup_isSome_mem_keys {rev : AssocMap (List String)} {k : String}
    (h : (lookupA rev k).isSome) : k ∈ rev.map Prod.fst := by
  induction rev with
  | nil => simp [lookupA] at h
  | cons p rest ih =>
      obtain ⟨a, b⟩ := p
      by_cases hk : k = a
      · subst hk; simp
      · simp only [lookupA, if_neg hk] at h
        simp [ih h]

section CycleConstruction

variable (rev : AssocMap (List String)) (t0 : String)

/-- The list seq (i+m-1), ..., seq (i+1), seq i of backward iterates. -/
def descSeq : ℕ → ℕ → List String
  | _, 0 => []
  | i, m + 1 => (pickSource rev)^[i + m] t0 :: descSeq i m

theorem descSeq_succ_eq : ∀ i m, descSeq rev t0 i (m + 1) =
    descSeq rev t0 (i + 1) m ++ [(pickSource rev)^[i] t0] := by
  intro i m
  induction m generalizing i with
  | zero => simp [descSeq]
  | succ m ih =>
      have h1 : descSeq rev t0 i (m + 2) =
          (pickSource rev)^[i + (m + 1)] t0 :: descSeq rev t0 i (m + 1) := rfl
      have h2 : descSeq rev t0 (i + 1) (m + 1) =
          (pickSource rev)^[(i + 1) + m] t0 :: descSeq rev t0 (i + 1) m := rfl
      rw [h1, h2, ih i]
      have : i + (m + 1) = (i + 1) + m := by omega
      rw [this]
      rfl

theorem chain_descSeq
    (hedge : ∀ k, EdgeRev rev ((pickSource rev)^[k + 1] t0)
      ((pickSource rev)^[k] t0)) :
    ∀ i m, List.Chain (EdgeRev rev) ((pickSource rev)^[i + m] t0)
      (descSeq rev t0 i m) := by
  intro i m
  induction m with
  | zero => exact List.Chain.nil
  | succ m ih =>
      have h1 : descSeq rev t0 i (m + 1) =
          (pickSource rev)^[i + m] t0 :: descSeq rev t0 i m := rfl
      rw [h1]
      have : i + (m + 1) = (i + m) + 1 := by omega
      rw [this]
      exact List.Chain.cons (hedge (i + m)) ih

end CycleConstruction

theorem cycle_of_no_zero (rev : AssocMap (List String)) (hrev : rev ≠ [])
    (hnz : zeroInbound rev = [])
    (hcl : ∀ p ∈ rev, ∀ s ∈ p.2, (lookupA rev s).isSome) :
    HasCycleSpec rev := by
  have hne : ∀ p ∈ rev, p.2 ≠ [] := (zeroInbound_eq_nil_iff rev).mp hnz
  obtain ⟨p0, rest, hrev0⟩ := List.exists_cons_of_ne_nil hrev
  -- every iterate of pickSource from p0.1 has an entry in rev
  have hkey : ∀ k, (lookupA rev ((pickSource rev)^[k] p0.1)).isSome := by
    intro k
    induction k with
    | zero =>
        simp only [Function.iterate_zero, id_eq]
        rw [hrev0]
        simp [lookupA]
    | succ k ih =>
        rw [Function.iterate_succ_apply']
        obtain ⟨l, hl⟩ := Option.isSome_iff_exists.mp ih
        have hmem : ((pickSource rev)^[k] p0.1, l) ∈ rev := lookupA_mem hl
        have hlne : l ≠ [] := hne _ hmem
        obtain ⟨s, l', hsl⟩ := List.exists_cons_of_ne_nil hlne
        have hpick : pickSource rev ((pickSource rev)^[k] p0.1) = s := by
          simp [pickSource, hl, hsl]
        rw [hpick]
        exact hcl _ hmem s (by simp [hsl])
  have hedge : ∀ k, EdgeRev rev ((pickSource rev)^[k + 1] p0.1)
      ((pickSource rev)^[k] p0.1) := by
    intro k
    obtain ⟨l, hl⟩ := Option.isSome_iff_exists.mp (hkey k)
    have hmem : ((pickSource rev)^[k] p0.1, l) ∈ rev := lookupA_mem hl
    have hlne : l ≠ [] := hne _ hmem
    obtain ⟨s, l', hsl⟩ := List.exists_cons_of_ne_nil hlne
    have hpick : pickSource rev ((pickSource rev)^[k] p0.1) = s := by
      simp [pickSource, hl, hsl]
    refine ⟨l, hl, ?_⟩
    rw [Function.iterate_succ_apply', hpick, hsl]
    exact List.mem_cons_self _ _
  -- pigeonhole: two indices in 0..rev.length share the same iterate
  set N := rev.length with hN
  have hcard : (rev.map Prod.fst).toFinset.card < (Finset.univ : Finset (Fin (N + 1))).card := by
    have h1 : (rev.map Prod.fst).toFinset.card ≤ N := by
      calc (rev.map Prod.fst).toFinset.card ≤ (rev.map Prod.fst).length :=
            List.toFinset_card_le _
        _ = N := by simp [hN]
    simpa using Nat.lt_succ_of_le h1
  obtain ⟨i, -, j, -, hij, hseq⟩ :=
    Finset.exists_ne_map_eq_of_card_lt_of_maps_to hcard
      (f := fun a : Fin (N + 1) => (pickSource rev)^[a.val] p0.1)
      (fun a _ => List.mem_toFinset.mpr (lookup_isSome_mem_keys (hkey a.val)))
  -- order the two indices
  rcases Nat.lt_or_ge i.val j.val with hlt | hge
  case inl =>
    obtain ⟨m, hm⟩ : ∃ m, j.val = i.val + (m + 1) :=
      ⟨j.val - i.val - 1, by omega⟩
    refine ⟨(pickSource rev)^[j.val] p0.1, descSeq rev p0.1 (i.val + 1) m, ?_⟩
    have hch := chain_descSeq rev p0.1 hedge i.val (m + 1)
    rw [descSeq_succ_eq] at hch
    rw [← hm] at hch
    rw [hseq] at hch
    exact hch
  case inr =>
    have hlt : j.val < i.val := by
      rcases Nat.lt_or_ge j.val i.val with h | h
      · exact h
      · exact absurd (Fin.ext (by omega)) hij
    obtain ⟨m, hm⟩ : ∃ m, i.val = j.val + (m + 1) :=
      ⟨i.val - j.val - 1, by omega⟩
    refine ⟨(pickSource rev)^[i.val] p0.1, descSeq rev p0.1 (j.val + 1) m, ?_⟩
    have hch := chain_descSeq rev p0.1 hedge j.val (m + 1)
    rw [descSeq_succ_eq] at hch
    rw [← hm] at hch
    rw [← hseq] at hch
    exact hch

theorem kahnLoop_iff_aux : ∀ (N : ℕ) (rev : AssocMap (List String)),
    rev.length ≤ N →
    (rev.map Prod.fst).Nodup →
    (∀ p ∈ rev, ∀ s ∈ p.2, (lookupA rev s).isSome) →
    (kahnLoop rev = true ↔ HasCycleSpec rev) := by
  intro N
  induction N with
  | zero =>
      intro rev hlen hnd hcl
      have hrev : rev = [] := List.eq_nil_of_length_eq_zero (Nat.le_zero.mp hlen)
      subst hrev
      rw [kahnLoop]
      simp only [zeroInbound, List.filter_nil, List.map_nil, dite_true]
      constructor
      · intro h; simp at h
      · intro h; exact absurd rfl (hasCycleSpec_ne_nil h)
  | succ N ih =>
      intro rev hlen hnd hcl
      rw [kahnLoop]
      by_cases hz : zeroInbound rev = []
      · rw [dif_pos hz]
        constructor
        · intro h
          have hrev : rev ≠ [] := by
            intro hr; subst hr; simp at h
          exact cycle_of_no_zero rev hrev hz hcl
        · intro h
          have hrev : rev ≠ [] := hasCycleSpec_ne_nil h
          simpa [List.isEmpty_iff] using hrev
      · rw [dif_neg hz]
        have hlt : (stripNodes rev (zeroInbound rev)).length < rev.length :=
          stripNodes_length_lt rev hz
        have hih := ih (stripNodes rev (zeroInbound rev))
          (by omega) (nodup_keys_stripNodes hnd) (closure_stripNodes hcl)
        rw [hih]
        constructor
        · intro h
          obtain ⟨x, l, hch⟩ := h
          exact ⟨x, l, chain_unstrip x (l ++ [x]) hch⟩
        · intro h
          exact cycle_strip hnd h

/-- Claim C9: HasCycles returns true exactly when the edge relation read
off the reverse adjacency contains a directed cycle, for any graph whose
reverse adjacency is well formed (distinct keys, every listed source is
itself a key) -- both hold for every graph built by the API, whose Go
maps have unique keys and whose connect operations only record existing
nodes.  The stripping loop is kahnLoop, a pure function of the cloned
map, which captures that HasCycles leaves the graph unchanged. -/
theorem c9_hasCycles_iff_cycle (g : DGraph)
    (hnd : (g.connectionsToNode.map Prod.fst).Nodup)
    (hcl : ∀ p ∈ g.connectionsToNode, ∀ s ∈ p.2,
      (lookupA g.connectionsToNode s).isSome) :
    hasCycles g = true ↔ HasCycleSpec g.connectionsToNode :=
  kahnLoop_iff_aux g.connectionsToNode.length g.connectionsToNode
    (Nat.le_refl _) hnd hcl

/-- Witness for claim C9 on a concrete two-node graph with a cycle. -/
theorem c9_hasCycles_iff_cycle_witness :
    (hasCycles ⟨[("a", ⟨false, false, .Waiting, []⟩),
        ("b", ⟨false, false, .Waiting, []⟩)], [],
        [("a", ["b"]), ("b", ["a"])], [("a", ["b"]), ("b", ["a"])]⟩ = true ↔
      HasCycleSpec [("a", ["b"]), ("b", ["a"])]) :=
  c9_hasCycles_iff_cycle
    ⟨[("a", ⟨false, false, .Waiting, []⟩),
        ("b", ⟨false, false, .Waiting, []⟩)], [],
        [("a", ["b"]), ("b", ["a"])], [("a", ["b"]), ("b", ["a"])]⟩
    (by decide) (by decide)
